import Mathlib

/-!
# missed-blocks-checker: a shallow embedding

The development follows the repository layout:

* `pkg/state/snapshot.go`  : `Snapshot`, `Snapshot.GetReport`
* `pkg/tendermint/websocket_manager.go` : `Queue`, `WebsocketManager`
* `pkg/tendermint/http.go` : `RPC.Get`, `RPC.GetActiveSetAtBlock`
* `pkg/state/manager.go`   : `Manager.AddBlock`, `Manager.AddNotifier`, `Manager.RemoveNotifier`
* `pkg/events`             : `ValidatorGroupChanged.GetDescription`, `GetEmoji`,
  `ValidatorLeftSignatory.Render`

Go maps are association lists with pairwise distinct keys, iterated in list
order (every iteration order of the map is some such list).  A Go `error` is
`Option String` (`none` is `nil`).  A function that can panic returns an
`Option`, with `none` for the panic.
-/

namespace MissedBlocksChecker

/-! ## Data model -/

/-- Record behind `*types.Validator`, with the fields the sources read. -/
structure Validator where
  OperatorAddress : String
  Moniker : String
  Jailed : Bool
deriving DecidableEq, Repr

/-- Modelled from the spec: `types.SignatureInto` is the derived triple
`{proposed, signed, not_signed}` of counts over the signature window (its
declaration is not among the sources). -/
structure SignatureInto where
  Proposed : Int
  Signed : Int
  NotSigned : Int
deriving DecidableEq, Repr

/-- Modelled from the spec: `GetNotSigned` returns the not-signed count of the
triple (the method is not among the sources). -/
def SignatureInto.GetNotSigned (s : SignatureInto) : Int := s.NotSigned

/-- Record behind `*config.MissedBlocksGroup`: the range `[Start, End]` on the
not-signed count and its four labels. -/
structure MissedBlocksGroup where
  Start : Int
  End : Int
  EmojiStart : String
  EmojiEnd : String
  DescStart : String
  DescEnd : String
deriving DecidableEq, Repr

/-- The configured groups, `config.MissedBlocksGroups`. -/
abbrev MissedBlocksGroups := List MissedBlocksGroup

/-- Modelled from the spec: `MissedBlocksGroups.GetGroup` (not among the
sources) returns the group whose range `[Start, End]` holds the count; `none`
is the nil pointer returned together with the error when no group holds it. -/
def MissedBlocksGroups.GetGroup (groups : MissedBlocksGroups) (missed : Int) :
    Option MissedBlocksGroup :=
  groups.find? (fun group => decide (group.Start ≤ missed) && decide (missed ≤ group.End))

/-- The data-model invariant on the configured groups: they are listed by
`Start` and each ends before the next one starts. -/
def MissedBlocksGroups.Ordered (groups : MissedBlocksGroups) : Prop :=
  groups.Pairwise (fun g h => g.End < h.Start)

instance (groups : MissedBlocksGroups) : Decidable groups.Ordered := by
  unfold MissedBlocksGroups.Ordered
  infer_instance

/-! ## Events and reports -/

/-- Event `events.ValidatorGroupChanged`. -/
structure ValidatorGroupChanged where
  Validator : Validator
  MissedBlocksBefore : Int
  MissedBlocksAfter : Int
  MissedBlocksGroupBefore : MissedBlocksGroup
  MissedBlocksGroupAfter : MissedBlocksGroup
deriving DecidableEq, Repr

/-- Event `events.ValidatorJailed`. -/
structure ValidatorJailed where
  Validator : Validator
deriving DecidableEq, Repr

/-- Event `events.ValidatorUnjailed`. -/
structure ValidatorUnjailed where
  Validator : Validator
deriving DecidableEq, Repr

/-- The values stored behind the interface `report.ReportEntry` by `GetReport`. -/
inductive ReportEntry where
  | groupChanged (e : ValidatorGroupChanged)
  | jailed (e : ValidatorJailed)
  | unjailed (e : ValidatorUnjailed)
deriving DecidableEq, Repr

/-- The validator an entry is about. -/
def ReportEntry.GetValidator : ReportEntry → Validator
  | .groupChanged e => e.Validator
  | .jailed e => e.Validator
  | .unjailed e => e.Validator

/-- Is the entry a `ValidatorGroupChanged` for the operator address? -/
def ReportEntry.isGroupChangedOf (valoper : String) : ReportEntry → Bool
  | .groupChanged e => e.Validator.OperatorAddress == valoper
  | _ => false

/-- Is the entry a `ValidatorJailed` for the operator address? -/
def ReportEntry.isJailedOf (valoper : String) : ReportEntry → Bool
  | .jailed e => e.Validator.OperatorAddress == valoper
  | _ => false

/-- Is the entry a `ValidatorUnjailed` for the operator address? -/
def ReportEntry.isUnjailedOf (valoper : String) : ReportEntry → Bool
  | .unjailed e => e.Validator.OperatorAddress == valoper
  | _ => false

/-- Record `report.Report`. -/
structure Report where
  Entries : List ReportEntry
deriving DecidableEq, Repr

/-! ## Snapshots (`pkg/state/snapshot.go`) -/

/-- Record `state.SnapshotEntry`. -/
structure SnapshotEntry where
  Validator : Validator
  SignatureInfo : SignatureInto
deriving DecidableEq, Repr

/-- Record `state.Snapshot`: the map `Entries` from operator address to entry. -/
structure Snapshot where
  Entries : List (String × SnapshotEntry)
  keys_nodup : (Entries.map Prod.fst).Nodup

/-- The entries are filed under their validator's operator address, the way
`Manager.GetSnapshot` builds them (`entries[validator.OperatorAddress] = ...`). -/
def Snapshot.Keyed (s : Snapshot) : Prop :=
  ∀ p ∈ s.Entries, p.2.Validator.OperatorAddress = p.1

instance (s : Snapshot) : Decidable s.Keyed := by
  unfold Snapshot.Keyed
  infer_instance

/-- Body of the loop of `Snapshot.GetReport` for the map entry `(valoper, entry)`:
the entries it appends.  `none` is the nil-pointer panic at `beforeGroup.Start`
or `afterGroup.Start` when `GetGroup` found no group (its error is dropped). -/
def Snapshot.GetReport.body (olderSnapshot : Snapshot) (groups : MissedBlocksGroups)
    (valoper : String) (entry : SnapshotEntry) : Option (List ReportEntry) :=
  match olderSnapshot.Entries.lookup valoper with
  | none => some []
  | some olderEntry =>
    let missedBlocksBefore := olderEntry.SignatureInfo.GetNotSigned
    let missedBlocksAfter := entry.SignatureInfo.GetNotSigned
    match groups.GetGroup missedBlocksBefore, groups.GetGroup missedBlocksAfter with
    | some beforeGroup, some afterGroup =>
      let missedBlocksGroupsEqual := decide (beforeGroup.Start = afterGroup.Start)
      let jailedEqual := olderEntry.Validator.Jailed == entry.Validator.Jailed
      some (
        (if !missedBlocksGroupsEqual && jailedEqual then
          [ReportEntry.groupChanged
            { Validator := entry.Validator
              MissedBlocksBefore := missedBlocksBefore
              MissedBlocksAfter := missedBlocksAfter
              MissedBlocksGroupBefore := beforeGroup
              MissedBlocksGroupAfter := afterGroup }]
         else [])
        ++ (if entry.Validator.Jailed && !olderEntry.Validator.Jailed then
          [ReportEntry.jailed { Validator := entry.Validator }]
         else [])
        ++ (if !entry.Validator.Jailed && olderEntry.Validator.Jailed then
          [ReportEntry.unjailed { Validator := entry.Validator }]
         else []))
    | _, _ => none

/-- The loop of `Snapshot.GetReport` over the remaining map entries, `entries`
being the slice built so far. -/
def Snapshot.GetReport.loop (olderSnapshot : Snapshot) (groups : MissedBlocksGroups) :
    List (String × SnapshotEntry) → List ReportEntry → Option (List ReportEntry)
  | [], entries => some entries
  | (valoper, entry) :: rest, entries =>
    match Snapshot.GetReport.body olderSnapshot groups valoper entry with
    | none => none
    | some added => Snapshot.GetReport.loop olderSnapshot groups rest (entries ++ added)

/-- Function `(snapshot *Snapshot) GetReport(olderSnapshot, appConfig)`; of the
configuration only `MissedBlocksGroups` is read. -/
def Snapshot.GetReport (snapshot olderSnapshot : Snapshot) (groups : MissedBlocksGroups) :
    Option Report :=
  (Snapshot.GetReport.loop olderSnapshot groups snapshot.Entries []).map Report.mk

/-- Every validator of `snapshot` that `olderSnapshot` also has falls into a
configured group with both of its not-signed counts. -/
def Snapshot.Grouped (snapshot olderSnapshot : Snapshot) (groups : MissedBlocksGroups) : Prop :=
  ∀ p ∈ snapshot.Entries, ∀ olderEntry ∈ olderSnapshot.Entries.lookup p.1,
    (groups.GetGroup olderEntry.SignatureInfo.GetNotSigned).isSome = true ∧
    (groups.GetGroup p.2.SignatureInfo.GetNotSigned).isSome = true

instance (snapshot olderSnapshot : Snapshot) (groups : MissedBlocksGroups) :
    Decidable (snapshot.Grouped olderSnapshot groups) := by
  unfold Snapshot.Grouped
  infer_instance

/-! ## Dedup queue and websocket manager (`pkg/tendermint/websocket_manager.go`) -/

/-- Modelled from the spec: a `types.WebsocketEmittable` is an item with a
content hash, `Hash()`; the interface is not among the sources.  `Body`
stands for the rest of the item. -/
structure WebsocketEmittable where
  Hash : String
  Body : String
deriving DecidableEq, Repr

/-- Record `tendermint.Queue` (the mutex apart). -/
structure Queue where
  Data : List WebsocketEmittable
  Size : Int
deriving DecidableEq, Repr

/-- Function `NewQueue(size)`. -/
def NewQueue (size : Int) : Queue :=
  { Data := [], Size := size }

/-- Method `(q *Queue) Add(emittable)`.  `none` is the panic of `q.Data[0]`
on an empty slice. -/
def Queue.Add (q : Queue) (emittable : WebsocketEmittable) : Option Queue :=
  if q.Size ≤ (q.Data.length : Int) then
    match q.Data with
    | [] => none
    | _ :: rest => some { q with Data := rest ++ [emittable] }
  else
    some { q with Data := q.Data ++ [emittable] }

/-- Method `(q *Queue) Has(emittable)`. -/
def Queue.Has (q : Queue) (emittable : WebsocketEmittable) : Bool :=
  q.Data.any (fun elem => elem.Hash == emittable.Hash)

/-- A sequence of `Add` calls, first to last. -/
def Queue.AddAll : Queue → List WebsocketEmittable → Option Queue
  | q, [] => some q
  | q, emittable :: rest =>
    match q.Add emittable with
    | none => none
    | some q' => q'.AddAll rest

/-- Record `tendermint.WebsocketManager`, reduced to the dedup queue and the
output channel; `Channel` lists the messages sent on it so far, oldest first. -/
structure WebsocketManager where
  queue : Queue
  Channel : List WebsocketEmittable
deriving DecidableEq, Repr

/-- Function `NewWebsocketManager`: the queue is `NewQueue(100)`, nothing sent yet. -/
def NewWebsocketManager : WebsocketManager :=
  { queue := NewQueue 100, Channel := [] }

/-- The body of the consumer loop of `WebsocketManager.Listen` for one `msg`,
run under the manager's mutex: drop the message when the queue has it,
otherwise send it on `Channel` and add it to the queue. -/
def WebsocketManager.consume (m : WebsocketManager) (msg : WebsocketEmittable) :
    Option WebsocketManager :=
  if m.queue.Has msg then
    some m
  else
    match m.queue.Add msg with
    | none => none
    | some q => some { queue := q, Channel := m.Channel ++ [msg] }

/-- The consumer body over a sequence of inbound messages, in order. -/
def WebsocketManager.consumeAll : WebsocketManager → List WebsocketEmittable →
    Option WebsocketManager
  | m, [] => some m
  | m, msg :: rest =>
    match m.consume msg with
    | none => none
    | some m' => m'.consumeAll rest

/-- The state the manager keeps between messages: the queue has size 100 and
holds the last 100 messages sent on `Channel`. -/
def WebsocketManager.Synced (m : WebsocketManager) : Prop :=
  m.queue = { Data := m.Channel.drop (m.Channel.length - 100), Size := 100 }

/-! ## Go `fmt` on a format without operands

`RPC.Get` ends in `fmt.Errorf(sb.String())`: the text it has assembled is the
format, and there are no operands.  The definitions below follow `doPrintf` of
the Go standard library for that case, on the characters of the format.
-/

/-- Go `fmt`, `parsenum`: reads a decimal number off the front.  `none` is the
overflow exit (a number above 1e6 followed by one more digit), which moves to
the end of the format; otherwise whether a digit was read, and the rest. -/
def Fmt.parsenum : List Char → Nat → Bool → Option (Bool × List Char)
  | [], _, isnum => some (isnum, [])
  | c :: cs, num, isnum =>
    if c.isDigit then
      if 1000000 < num then none
      else Fmt.parsenum cs (num * 10 + (c.toNat - 48)) true
    else some (isnum, c :: cs)

/-- Go `fmt`, the flag loop of `doPrintf`: skips `#`, `0`, `+`, `-` and blank. -/
def Fmt.skipFlags : List Char → List Char
  | [] => []
  | c :: cs =>
    if c = '#' ∨ c = '0' ∨ c = '+' ∨ c = '-' ∨ c = Char.ofNat 32 then Fmt.skipFlags cs
    else c :: cs

/-- Splits at the first `]`: what is before it and what is after it. -/
def Fmt.splitBracket : List Char → Option (List Char × List Char)
  | [] => none
  | c :: cs =>
    if c = ']' then some ([], cs)
    else match Fmt.splitBracket cs with
      | none => none
      | some (inner, rest) => some (c :: inner, rest)

/-- Go `fmt`, `argNumber` for a call without operands: the rest of the format,
whether an index `[n]` was read, and whether the argument number went bad
(it does for every `[`, no index being in range). -/
def Fmt.argNumber (cs : List Char) : List Char × Bool × Bool :=
  match cs with
  | '[' :: tl =>
    if cs.length < 3 then (tl, false, true)
    else match Fmt.splitBracket tl with
      | none => (tl, false, true)
      | some (inner, rest) =>
        match Fmt.parsenum inner 0 false with
        | some (true, []) => (rest, true, true)
        | _ => (rest, false, true)
  | _ => (cs, false, false)

/-- Go `fmt`, one verb of `doPrintf` for a call without operands, started
after the `%`: the text written and the rest of the format (`none` when the
format ended inside the verb). -/
def Fmt.verb (cs0 : List Char) : List Char × Option (List Char) :=
  let cs1 := Fmt.skipFlags cs0
  let (cs2, afterIndex1, bad1) := Fmt.argNumber cs1
  let (out3, cs3, afterIndex3, bad3) : List Char × List Char × Bool × Bool :=
    match cs2 with
    | '*' :: tl => ("%!(BADWIDTH)".data, tl, false, bad1)
    | _ =>
      match Fmt.parsenum cs2 0 false with
      | none => ([], [], afterIndex1, bad1)
      | some (isnum, rest) => ([], rest, afterIndex1, bad1 || (afterIndex1 && isnum))
  let (out4, cs4, afterIndex4, bad4) : List Char × List Char × Bool × Bool :=
    match cs3 with
    | '.' :: tl =>
      let (tl2, afterIndex, bad) := Fmt.argNumber tl
      match tl2 with
      | '*' :: tl3 => ("%!(BADPREC)".data, tl3, false, bad3 || afterIndex3 || bad)
      | _ =>
        match Fmt.parsenum tl2 0 false with
        | none => ([], [], afterIndex, bad3 || afterIndex3 || bad)
        | some (_, rest) => ([], rest, afterIndex, bad3 || afterIndex3 || bad)
    | _ => ([], cs3, afterIndex3, bad3)
  let (cs5, bad5) : List Char × Bool :=
    if afterIndex4 then (cs4, bad4)
    else ((Fmt.argNumber cs4).1, bad4 || (Fmt.argNumber cs4).2.2)
  match cs5 with
  | [] => (out3 ++ out4 ++ "%!(NOVERB)".data, none)
  | v :: rest =>
    if v = '%' then (out3 ++ out4 ++ ['%'], some rest)
    else if bad5 then (out3 ++ out4 ++ "%!".data ++ [v] ++ "(BADINDEX)".data, some rest)
    else (out3 ++ out4 ++ "%!".data ++ [v] ++ "(MISSING)".data, some rest)

/-- Go `fmt`, the main loop of `doPrintf` for a call without operands; the
first argument bounds the number of steps, one per character being enough. -/
def Fmt.doPrintf : Nat → List Char → List Char
  | 0, _ => []
  | _ + 1, [] => []
  | n + 1, c :: cs =>
    if c = '%' then
      match Fmt.verb cs with
      | (out, none) => out
      | (out, some rest) => out ++ Fmt.doPrintf n rest
    else c :: Fmt.doPrintf n cs

/-- Go `fmt.Errorf(format)` with no operands: the text of the error made. -/
def Fmt.Errorf (format : String) : String :=
  String.mk (Fmt.doPrintf format.data.length format.data)

/-! ## RPC client (`pkg/tendermint/http.go`) -/

/-- What one endpoint does with a query: `GetFull` returns an error (the
request or the decoding failed), or the response is decoded and the predicate
returns an error, or the response is decoded and the predicate returns nil. -/
inductive Outcome where
  | failed (err : String)
  | rejected (predicateErr : String)
  | accepted
deriving DecidableEq, Repr

/-- How the loop of `RPC.Get` ends: with `return nil`, by running out of
indexes (with the errors recorded), or in the panic of an index out of range. -/
inductive LoopEnd where
  | returnedNil
  | exhausted (errors : List (Option String))
  | panicked
deriving DecidableEq, Repr

/-- The loop of `RPC.Get` over the shuffled `indexes`; `errors` is the slice of
errors, one slot per endpoint, `none` for nil. -/
def RPC.Get.loop (RPCEndpoints : List String) (outcome : Nat → Outcome) :
    List Nat → List (Option String) → LoopEnd
  | [], errors => LoopEnd.exhausted errors
  | index :: rest, errors =>
    match RPCEndpoints[index]? with
    | none => LoopEnd.panicked
    | some _ =>
      match outcome index with
      | Outcome.failed err =>
        RPC.Get.loop RPCEndpoints outcome rest (errors.set index (some err))
      | Outcome.rejected _ =>
        RPC.Get.loop RPCEndpoints outcome rest (errors.set index (some "precondition failed"))
      | Outcome.accepted => LoopEnd.returnedNil

/-- Go `%s` of an `error`: its message, or `%!s(<nil>)` for nil. -/
def Fmt.errorText : Option String → String
  | some msg => msg
  | none => "%!s(<nil>)"

/-- The line `fmt.Sprintf("#%d: %s -> %s\n", index+1, nodeURL, errors[index])`. -/
def RPC.Get.line (errors : List (Option String)) (index : Nat) (nodeURL : String) : String :=
  "#" ++ toString (index + 1) ++ ": " ++ nodeURL ++ " -> " ++
    Fmt.errorText (errors.getD index none) ++ "\n"

/-- The text assembled in the string builder once every endpoint has failed. -/
def RPC.Get.text (RPCEndpoints : List String) (errors : List (Option String)) : String :=
  "All LCD requests failed:\n" ++
    String.join (RPCEndpoints.enum.map (fun p => RPC.Get.line errors p.1 p.2))

/-- Method `(rpc *RPC) Get(url, queryType, target, predicate)`.  `indexes` is
what `utils.MakeShuffledArray(len(RPCEndpoints))` returned and `outcome` says
what each endpoint does.  The result is `none` for a panic, `some none` for
`return nil` and `some (some text)` for the error with that text. -/
def RPC.Get (RPCEndpoints : List String) (indexes : List Nat) (outcome : Nat → Outcome) :
    Option (Option String) :=
  match RPC.Get.loop RPCEndpoints outcome indexes (List.replicate RPCEndpoints.length none) with
  | LoopEnd.returnedNil => some none
  | LoopEnd.panicked => none
  | LoopEnd.exhausted errors => some (some (Fmt.Errorf (RPC.Get.text RPCEndpoints errors)))

/-- The failure reason `RPC.Get` records for an endpoint. -/
def Outcome.reason : Outcome → Option String
  | Outcome.failed err => some err
  | Outcome.rejected _ => some "precondition failed"
  | Outcome.accepted => none

/-- Does the text start with the part? -/
def Text.startsWith : List Char → List Char → Bool
  | _, [] => true
  | [], _ :: _ => false
  | c :: cs, d :: ds => c == d && Text.startsWith cs ds

/-- Does the part occur in the text? -/
def Text.occursIn (part : List Char) : List Char → Bool
  | [] => part.isEmpty
  | c :: cs => Text.startsWith (c :: cs) part || Text.occursIn part cs

/-- The error Go's HTTP client returns for a failed ABCI query: it quotes the
request URL, in which `AbciQuery` has escaped the quotes of the path as `%22`. -/
def abciFailure : String :=
  "Get \"http://a/abci_query?path=%22x%22\": EOF"

/-! ## State manager (`pkg/state/manager.go`)

Of this package only `manager.go` and `snapshot.go` are among the sources:
`State` and `Database` are modelled from the spec.  An error returned by a
database call is an input of the call (`none` when the write succeeds).
-/

/-- Go `int64` arithmetic: the result wraps into `[-2^63, 2^63)`. -/
def wrapInt64 (x : Int) : Int :=
  (x + 9223372036854775808) % 18446744073709551616 - 9223372036854775808

/-- Modelled from the spec: a `types.Block` has a height, a timestamp, a
proposer and the addresses that signed (the type is not among the sources). -/
structure Block where
  Height : Int
  Time : Int
  Proposer : String
  Signatures : List String
deriving DecidableEq, Repr

/-- A subscription `(operator_address, reporter, notifier)`. -/
structure Subscription where
  OperatorAddress : String
  Reporter : String
  Notifier : String
deriving DecidableEq, Repr

/-- Modelled from the spec: the in-memory `State` holds the map of blocks by
height and the subscriptions (`state.go` is not among the sources). -/
structure State where
  blocks : List Block
  notifiers : List Subscription
deriving DecidableEq, Repr

/-- Modelled from the spec: `NewState` is the empty state. -/
def NewState : State :=
  { blocks := [], notifiers := [] }

/-- Modelled from the spec: `State.AddBlock` inserts the block into the map
under its height (`addBlock(b)`: insert into map). -/
def State.AddBlock (s : State) (block : Block) : State :=
  { s with blocks := s.blocks.filter (fun b => decide (b.Height ≠ block.Height)) ++ [block] }

/-- The greatest height among the blocks, if there is a block. -/
def maxHeight : List Block → Option Int
  | [] => none
  | b :: rest =>
    match maxHeight rest with
    | none => some b.Height
    | some h => some (max b.Height h)

/-- Modelled from the spec: `State.GetLastBlockHeight` is the maximum height in
the state ("if `b.height` is the new max"), 0 for a state without blocks. -/
def State.GetLastBlockHeight (s : State) : Int :=
  (maxHeight s.blocks).getD 0

/-- Modelled from the spec: `State.TrimBlocksBefore(h)` evicts the blocks
strictly below `h`. -/
def State.TrimBlocksBefore (s : State) (trimHeight : Int) : State :=
  { s with blocks := s.blocks.filter (fun b => decide (trimHeight ≤ b.Height)) }

/-- Modelled from the spec: `State.AddNotifier` adds the subscription and
returns true, or returns false when the state already has it. -/
def State.AddNotifier (s : State) (operatorAddress reporter notifier : String) : State × Bool :=
  if (⟨operatorAddress, reporter, notifier⟩ : Subscription) ∈ s.notifiers then (s, false)
  else ({ s with notifiers := s.notifiers ++ [⟨operatorAddress, reporter, notifier⟩] }, true)

/-- Modelled from the spec: `State.RemoveNotifier` removes the subscription and
returns true, or returns false when the state does not have it. -/
def State.RemoveNotifier (s : State) (operatorAddress reporter notifier : String) :
    State × Bool :=
  if (⟨operatorAddress, reporter, notifier⟩ : Subscription) ∈ s.notifiers then
    ({ s with notifiers := (s.notifiers.filter
        (fun x => decide (x ≠ (⟨operatorAddress, reporter, notifier⟩ : Subscription)))) }, true)
  else (s, false)

/-- Modelled from the spec: the `Database` holds the table `blocks` (primary
key `height`) and the table `notifiers` (`database.go` is not among the sources). -/
structure Database where
  blocks : List Block
  notifiers : List Subscription
deriving DecidableEq, Repr

/-- Modelled from the spec: `insert_block`, when the write succeeds. -/
def Database.InsertBlock (d : Database) (block : Block) : Database :=
  { d with blocks := d.blocks.filter (fun b => decide (b.Height ≠ block.Height)) ++ [block] }

/-- Modelled from the spec: `trim_blocks_before(height)`, when the write
succeeds: the rows strictly below the height are deleted. -/
def Database.TrimBlocksBefore (d : Database) (trimHeight : Int) : Database :=
  { d with blocks := d.blocks.filter (fun b => decide (trimHeight ≤ b.Height)) }

/-- Modelled from the spec: `insert_notifier`, when the write succeeds. -/
def Database.InsertNotifier (d : Database) (operatorAddress reporter notifier : String) :
    Database :=
  { d with notifiers := (d.notifiers.filter
      (fun x => decide (x ≠ (⟨operatorAddress, reporter, notifier⟩ : Subscription)))) ++
        [⟨operatorAddress, reporter, notifier⟩] }

/-- Modelled from the spec: `remove_notifier`, when the write succeeds. -/
def Database.RemoveNotifier (d : Database) (operatorAddress reporter notifier : String) :
    Database :=
  { d with notifiers := (d.notifiers.filter
      (fun x => decide (x ≠ (⟨operatorAddress, reporter, notifier⟩ : Subscription)))) }

/-- Record `state.Manager` (the logger apart); of the configuration only
`ChainConfig.StoreBlocks` is read here. -/
structure Manager where
  StoreBlocks : Int
  state : State
  database : Database
deriving DecidableEq, Repr

/-- Function `NewManager`: empty state, empty database. -/
def NewManager (storeBlocks : Int) : Manager :=
  { StoreBlocks := storeBlocks, state := NewState, database := { blocks := [], notifiers := [] } }

/-- Method `(m *Manager) AddBlock(block)`; `insertErr` and `trimErr` are what
`database.InsertBlock` and `database.TrimBlocksBefore` return.  The result is
the manager after the call and the error returned. -/
def Manager.AddBlock (m : Manager) (block : Block) (insertErr trimErr : Option String) :
    Manager × Option String :=
  let state1 := m.state.AddBlock block
  match insertErr with
  | some err => ({ m with state := state1 }, some err)
  | none =>
    let database1 := m.database.InsertBlock block
    if state1.GetLastBlockHeight = block.Height then
      let trimHeight := wrapInt64 (block.Height - m.StoreBlocks)
      let state2 := state1.TrimBlocksBefore trimHeight
      match trimErr with
      | some err => ({ m with state := state2, database := database1 }, some err)
      | none =>
        ({ m with state := state2, database := database1.TrimBlocksBefore trimHeight }, none)
    else
      ({ m with state := state1, database := database1 }, none)

/-- A sequence of `AddBlock` calls, each with the errors its database calls return. -/
def Manager.AddBlocks : Manager → List (Block × Option String × Option String) → Manager
  | m, [] => m
  | m, (block, insertErr, trimErr) :: rest =>
    Manager.AddBlocks (m.AddBlock block insertErr trimErr).1 rest

/-- Method `(m *Manager) AddNotifier(operatorAddress, reporter, notifier)`;
`insertErr` is what `database.InsertNotifier` returns. -/
def Manager.AddNotifier (m : Manager) (operatorAddress reporter notifier : String)
    (insertErr : Option String) : Manager × Bool :=
  let (state1, added) := m.state.AddNotifier operatorAddress reporter notifier
  if !added then
    ({ m with state := state1 }, false)
  else
    match insertErr with
    | none =>
      ({ m with state := state1,
                database := m.database.InsertNotifier operatorAddress reporter notifier }, true)
    | some _ => ({ m with state := state1 }, false)

/-- Method `(m *Manager) RemoveNotifier(operatorAddress, reporter, notifier)`;
`removeErr` is what `database.RemoveNotifier` returns. -/
def Manager.RemoveNotifier (m : Manager) (operatorAddress reporter notifier : String)
    (removeErr : Option String) : Manager × Bool :=
  let (state1, removed) := m.state.RemoveNotifier operatorAddress reporter notifier
  if !removed then
    ({ m with state := state1 }, false)
  else
    match removeErr with
    | none =>
      ({ m with state := state1,
                database := m.database.RemoveNotifier operatorAddress reporter notifier }, true)
    | some _ => ({ m with state := state1 }, false)

/-- The invariant of the spec on the heights of a state:
`max(heights) - min(heights) ≤ storeBlocks`. -/
def State.Within (s : State) (storeBlocks : Int) : Prop :=
  ∀ x ∈ s.blocks, ∀ y ∈ s.blocks, x.Height - y.Height ≤ storeBlocks

instance (s : State) (storeBlocks : Int) : Decidable (s.Within storeBlocks) := by
  unfold State.Within
  infer_instance

/-- A block of the given height. -/
def blockAt (height : Int) : Block :=
  { Height := height, Time := 0, Proposer := "proposer", Signatures := [] }

/-- The calls `AddBlock(mk 1), ..., AddBlock(mk n)` in this order, every
database write succeeding. -/
def ascendingCalls (mk : Int → Block) (n : Nat) :
    List (Block × Option String × Option String) :=
  (List.range n).map (fun (i : Nat) => (mk ((i : Int) + 1), none, none))

/-- The blocks `mk 1, ..., mk n` of height at least `low`, in this order. -/
def blocksFrom (mk : Int → Block) (n : Nat) (low : Int) : List Block :=
  ((List.range n).map (fun (i : Nat) => mk ((i : Int) + 1))).filter (fun b => decide (low ≤ b.Height))

/-! ## Historical validators (`RPC.GetActiveSetAtBlock`, `pkg/tendermint/http.go`) -/

/-- Constant `constants.ActiveSetPagination`. -/
def ActiveSetPagination : Nat := 100

/-- What an endpoint does with the query of `GetActiveSetAtBlock` when
`GetFull` ends in `response`: the predicate handed to `RPC.Get` rejects a
decoded response without validators. -/
def RPC.GetActiveSetAtBlock.outcome (response : Except String (List String)) : Outcome :=
  match response with
  | Except.error err => Outcome.failed err
  | Except.ok validators =>
    if validators.length = 0 then
      Outcome.rejected "malformed result of validators active set: got 0 validators"
    else Outcome.accepted

/-- The addresses in `response.Result.Validators` after the query: what was
decoded, or the zero value. -/
def RPC.GetActiveSetAtBlock.decoded (response : Except String (List String)) : List String :=
  match response with
  | Except.error _ => []
  | Except.ok validators => validators

/-- Go `activeSetMap[address] = true` on a `map[string]bool`. -/
def activeSetMapSet (activeSetMap : List (String × Bool)) (address : String) :
    List (String × Bool) :=
  if activeSetMap.any (fun p => p.1 == address) then
    activeSetMap.map (fun p => if p.1 == address then (address, true) else p)
  else activeSetMap ++ [(address, true)]

/-- How `GetActiveSetAtBlock` ends: it returns the map, or the error of
`RPC.Get`, or it panics; `unfinished` is a loop still running when the bound
on the number of its rounds is reached. -/
inductive ActiveSetEnd where
  | returned (activeSetMap : List (String × Bool))
  | failed (err : String)
  | panicked
  | unfinished
deriving DecidableEq, Repr

/-- The loop of `GetActiveSetAtBlock`, from `page` on, `rounds` rounds at most.
`shuffle page` is the order in which `RPC.Get` tries the endpoints for the
page, and `serve height page` is what `GetFull` gets from an endpoint for
`/validators?height=..&per_page=100&page=..`. -/
def RPC.GetActiveSetAtBlock.loop (RPCEndpoints : List String) (shuffle : Nat → List Nat)
    (serve : Int → Nat → Except String (List String)) (height : Int) :
    Nat → Nat → List (String × Bool) → ActiveSetEnd
  | 0, _, _ => ActiveSetEnd.unfinished
  | rounds + 1, page, activeSetMap =>
    match RPC.Get RPCEndpoints (shuffle page)
        (fun _ => RPC.GetActiveSetAtBlock.outcome (serve height page)) with
    | none => ActiveSetEnd.panicked
    | some (some err) => ActiveSetEnd.failed err
    | some none =>
      let validators := RPC.GetActiveSetAtBlock.decoded (serve height page)
      let activeSetMap' := validators.foldl activeSetMapSet activeSetMap
      if validators.length ≤ ActiveSetPagination then
        ActiveSetEnd.returned activeSetMap'
      else
        RPC.GetActiveSetAtBlock.loop RPCEndpoints shuffle serve height rounds (page + 1)
          activeSetMap'

/-- Method `(rpc *RPC) GetActiveSetAtBlock(height)`: the loop from page 1 with
an empty map. -/
def RPC.GetActiveSetAtBlock (RPCEndpoints : List String) (shuffle : Nat → List Nat)
    (serve : Int → Nat → Except String (List String)) (height : Int) (rounds : Nat) :
    ActiveSetEnd :=
  RPC.GetActiveSetAtBlock.loop RPCEndpoints shuffle serve height rounds 1 []

/-- An endpoint that serves the active set in pages of `per_page=100`
entries: page `p` holds the entries `100 (p - 1) + 1` to `100 p`. -/
def servePages (activeSet : List String) : Int → Nat → Except String (List String) :=
  fun _ page =>
    Except.ok ((activeSet.drop ((page - 1) * ActiveSetPagination)).take ActiveSetPagination)

/-- An active set of `n` validators with the addresses `valcons0`, `valcons1`, ... -/
def validatorSet (n : Nat) : List String :=
  (List.range n).map (fun (i : Nat) => "valcons" ++ toString i)

/-! ## Event rendering (`pkg/events`) -/

/-- Method `(e *ValidatorGroupChanged) GetDescription()`. -/
def ValidatorGroupChanged.GetDescription (e : ValidatorGroupChanged) : String :=
  if e.MissedBlocksGroupBefore.Start < e.MissedBlocksGroupAfter.Start then
    e.MissedBlocksGroupAfter.DescStart
  else
    e.MissedBlocksGroupAfter.DescEnd

/-- Method `(e *ValidatorGroupChanged) GetEmoji()`. -/
def ValidatorGroupChanged.GetEmoji (e : ValidatorGroupChanged) : String :=
  if e.MissedBlocksGroupBefore.Start < e.MissedBlocksGroupAfter.Start then
    e.MissedBlocksGroupAfter.EmojiStart
  else
    e.MissedBlocksGroupAfter.EmojiEnd

/-- The configured groups are disjoint as ranges of counts, in whatever order
they are listed. -/
def MissedBlocksGroups.Disjoint (groups : MissedBlocksGroups) : Prop :=
  groups.Pairwise (fun g h =>
    g.End < g.Start ∨ h.End < h.Start ∨ g.End < h.Start ∨ h.End < g.Start)

instance (groups : MissedBlocksGroups) : Decidable groups.Disjoint := by
  unfold MissedBlocksGroups.Disjoint
  infer_instance

/-- Event `events.ValidatorLeftSignatory`. -/
structure ValidatorLeftSignatory where
  Validator : Validator
deriving DecidableEq, Repr

/-- Record `types.ReportEventRenderData`, as the tests build it. -/
structure ReportEventRenderData where
  Notifiers : String
  ValidatorLink : String
deriving DecidableEq, Repr

/-- Modelled from the spec: the format `constants.FormatTypeHTML` (the
constant is not among the sources). -/
def FormatTypeHTML : String := "html"

/-- Modelled from the spec: the format `constants.FormatTypeMarkdown` (the
constant is not among the sources). -/
def FormatTypeMarkdown : String := "markdown"

/-- Modelled from the spec: the format `constants.FormatTypeTest`, which the
test expects to be rendered as `test` (the constant is not among the sources). -/
def FormatTypeTest : String := "test"

/-- Modelled from the spec: `ValidatorLeftSignatory.Render(format, renderData)`,
of which only the tests are among the sources.  HTML and Markdown put the
validator link into the sentence, in bold, followed by the notifiers; any other
format yields `Unsupported format type: <format>`. -/
def ValidatorLeftSignatory.Render (_e : ValidatorLeftSignatory) (formatType : String)
    (renderData : ReportEventRenderData) : String :=
  if formatType = FormatTypeMarkdown then
    "**👋 " ++ renderData.ValidatorLink ++ " is now not required to sign blocks** " ++
      renderData.Notifiers
  else if formatType = FormatTypeHTML then
    "<strong>👋 " ++ renderData.ValidatorLink ++
      " is now not required to sign blocks</strong> " ++ renderData.Notifiers
  else
    "Unsupported format type: " ++ formatType

/-! ## Sample data: the group-transition scenario -/

/-- The three groups of the scenario, over a window of 100 blocks. -/
def scenarioGroups : MissedBlocksGroups :=
  [ { Start := 0, End := 9, EmojiStart := "🟢", EmojiEnd := "🟢",
      DescStart := "OK", DescEnd := "OK" },
    { Start := 10, End := 49, EmojiStart := "🟡", EmojiEnd := "🟡",
      DescStart := "skipping", DescEnd := "skipping" },
    { Start := 50, End := 100, EmojiStart := "🔴", EmojiEnd := "🔴",
      DescStart := "very bad", DescEnd := "very bad" } ]

/-- The validator `V` of the scenarios, with the given jailed flag. -/
def scenarioValidator (jailed : Bool) : Validator :=
  { OperatorAddress := "valoperV", Moniker := "V", Jailed := jailed }

/-- A snapshot holding `V` alone, with `missed` blocks not signed out of 100. -/
def scenarioSnapshot (jailed : Bool) (missed : Int) : Snapshot :=
  { Entries := [("valoperV",
      { Validator := scenarioValidator jailed
        SignatureInfo := { Proposed := 0, Signed := 100 - missed, NotSigned := missed } })]
    keys_nodup := by simp }

/-- The scenario's groups without the first one: counts below 10 are in no group. -/
def gappedGroups : MissedBlocksGroups := scenarioGroups.drop 1

/-- A snapshot without validators. -/
def emptySnapshot : Snapshot :=
  { Entries := [], keys_nodup := List.nodup_nil }

/-- The scenario's three ranges, listed out of order, with labels that tell
the direction. -/
def labelledGroups : MissedBlocksGroups :=
  [ { Start := 10, End := 49, EmojiStart := "🟡", EmojiEnd := "🟢",
      DescStart := "is skipping blocks", DescEnd := "is recovering" },
    { Start := 0, End := 9, EmojiStart := "🟡", EmojiEnd := "🟢",
      DescStart := "is skipping blocks", DescEnd := "is signing blocks again" },
    { Start := 50, End := 100, EmojiStart := "🔴", EmojiEnd := "🟠",
      DescStart := "is skipping a lot of blocks", DescEnd := "is recovering slowly" } ]

/-- The `ValidatorGroupChanged` of `V` going from 8 to 12 missed blocks under
`labelledGroups`. -/
def labelledEvent : ValidatorGroupChanged :=
  { Validator := scenarioValidator false
    MissedBlocksBefore := 8
    MissedBlocksAfter := 12
    MissedBlocksGroupBefore :=
      { Start := 0, End := 9, EmojiStart := "🟡", EmojiEnd := "🟢",
        DescStart := "is skipping blocks", DescEnd := "is signing blocks again" }
    MissedBlocksGroupAfter :=
      { Start := 10, End := 49, EmojiStart := "🟡", EmojiEnd := "🟢",
        DescStart := "is skipping blocks", DescEnd := "is recovering" } }

/-! # Theorems -/

/-! ## `Snapshot.GetReport` -/

theorem GetGroup_mem {groups : MissedBlocksGroups} {n : Int} {g : MissedBlocksGroup}
    (h : groups.GetGroup n = some g) : g ∈ groups :=
  List.mem_of_find?_eq_some h

theorem GetGroup_range {groups : MissedBlocksGroups} {n : Int} {g : MissedBlocksGroup}
    (h : groups.GetGroup n = some g) : g.Start ≤ n ∧ n ≤ g.End := by
  have := List.find?_some h
  simpa using this

/-- In an ordered configuration two different groups that each hold a count
start at different places. -/
theorem Ordered.start_ne {groups : MissedBlocksGroups} (ho : groups.Ordered)
    {n m : Int} {g h : MissedBlocksGroup}
    (hg : groups.GetGroup n = some g) (hh : groups.GetGroup m = some h) (hne : g ≠ h) :
    g.Start ≠ h.Start := by
  have hsym : groups.Pairwise (fun a b => a.End < b.Start ∨ b.End < a.Start) :=
    List.Pairwise.imp (fun hab => Or.inl hab) ho
  have hR := List.Pairwise.forall (fun a b hab => hab.symm) hsym
    (GetGroup_mem hg) (GetGroup_mem hh) hne
  have h1 := GetGroup_range hg
  have h2 := GetGroup_range hh
  rcases hR with hR | hR <;> omega

/-- Every entry the loop body appends carries the newer validator record. -/
theorem body_validator {older : Snapshot} {groups : MissedBlocksGroups} {valoper : String}
    {entry : SnapshotEntry} {added : List ReportEntry}
    (h : Snapshot.GetReport.body older groups valoper entry = some added) :
    ∀ x ∈ added, x.GetValidator = entry.Validator := by
  unfold Snapshot.GetReport.body at h
  cases hl : older.Entries.lookup valoper with
  | none =>
    rw [hl] at h
    simp only [Option.some.injEq] at h
    subst h
    simp
  | some olderEntry =>
    rw [hl] at h
    simp only at h
    cases hgb : groups.GetGroup olderEntry.SignatureInfo.GetNotSigned with
    | none => rw [hgb] at h; simp at h
    | some gb =>
      cases hga : groups.GetGroup entry.SignatureInfo.GetNotSigned with
      | none => rw [hgb, hga] at h; simp at h
      | some ga =>
        rw [hgb, hga] at h
        simp only [Option.some.injEq] at h
        subst h
        intro x hx
        simp only [List.mem_append] at hx
        rcases hx with (hx | hx) | hx
        all_goals
          split at hx
          · rw [List.mem_singleton] at hx; subst hx; rfl
          · simp at hx

/-- The loop returns the slice it was given followed by what each body adds,
as soon as no body panics. -/
theorem loop_eq (older : Snapshot) (groups : MissedBlocksGroups) :
    ∀ (l : List (String × SnapshotEntry)) (entries : List ReportEntry),
      (∀ p ∈ l, (Snapshot.GetReport.body older groups p.1 p.2).isSome = true) →
      Snapshot.GetReport.loop older groups l entries =
        some (entries ++ l.flatMap
          (fun p => (Snapshot.GetReport.body older groups p.1 p.2).getD []))
  | [], entries, _ => by simp [Snapshot.GetReport.loop]
  | (valoper, entry) :: rest, entries, h => by
    have h0 := h (valoper, entry) (List.mem_cons_self _ _)
    obtain ⟨added, hadded⟩ := Option.isSome_iff_exists.mp h0
    simp only at hadded
    have ih := loop_eq older groups rest (entries ++ added)
      (fun p hp => h p (List.mem_cons_of_mem _ hp))
    simp [Snapshot.GetReport.loop, hadded, ih, List.append_assoc]

theorem body_isSome_of_grouped {snapshot older : Snapshot} {groups : MissedBlocksGroups}
    (hg : snapshot.Grouped older groups) :
    ∀ p ∈ snapshot.Entries, (Snapshot.GetReport.body older groups p.1 p.2).isSome = true := by
  intro p hp
  unfold Snapshot.GetReport.body
  cases hl : older.Entries.lookup p.1 with
  | none => rfl
  | some olderEntry =>
    obtain ⟨h1, h2⟩ := hg p hp olderEntry (by simp [hl])
    obtain ⟨gb, hgb⟩ := Option.isSome_iff_exists.mp h1
    obtain ⟨ga, hga⟩ := Option.isSome_iff_exists.mp h2
    simp [hgb, hga]

/-- With every common validator in a group, `GetReport` returns the report
made of what each loop body adds, in iteration order. -/
theorem GetReport_eq {snapshot older : Snapshot} {groups : MissedBlocksGroups}
    (hg : snapshot.Grouped older groups) :
    snapshot.GetReport older groups =
      some ⟨snapshot.Entries.flatMap
        (fun p => (Snapshot.GetReport.body older groups p.1 p.2).getD [])⟩ := by
  unfold Snapshot.GetReport
  rw [loop_eq older groups snapshot.Entries [] (body_isSome_of_grouped hg)]
  simp

/-- In a list with distinct keys, a map into lists that is empty away from one
key flattens to its value at that key. -/
theorem flatMap_single {β γ : Type} (f : String × β → List γ) :
    ∀ (l : List (String × β)) (k : String) (v : β),
      (l.map Prod.fst).Nodup → (k, v) ∈ l → (∀ p ∈ l, p.1 ≠ k → f p = []) →
      l.flatMap f = f (k, v)
  | [], _, _, _, hm, _ => by simp at hm
  | q :: rest, k, v, hn, hm, hz => by
    simp only [List.map_cons, List.nodup_cons] at hn
    rw [List.flatMap_cons]
    rcases List.mem_cons.mp hm with heq | hm
    · subst heq
      have hrest : rest.flatMap f = [] := by
        rw [List.flatMap_eq_nil_iff]
        intro p hp
        apply hz p (List.mem_cons_of_mem _ hp)
        intro hk
        exact hn.1 (List.mem_map.mpr ⟨p, hp, hk⟩)
      simp [hrest]
    · have hq : q.1 ≠ k := by
        intro hk
        exact hn.1 (List.mem_map.mpr ⟨(k, v), hm, hk.symm⟩)
      rw [hz q (List.mem_cons_self _ _) hq, List.nil_append]
      exact flatMap_single f rest k v hn.2 hm
        (fun p hp => hz p (List.mem_cons_of_mem _ hp))

/-- In a map, the entry filed under a key is the one `lookup` finds. -/
theorem lookup_of_mem {β : Type} :
    ∀ (l : List (String × β)) (k : String) (v : β),
      (l.map Prod.fst).Nodup → (k, v) ∈ l → l.lookup k = some v
  | [], _, _, _, hm => by simp at hm
  | (k', v') :: rest, k, v, hn, hm => by
    simp only [List.map_cons, List.nodup_cons] at hn
    rcases List.mem_cons.mp hm with heq | hm
    · cases heq
      simp [List.lookup]
    · have hk : (k == k') = false := by
        rw [beq_eq_false_iff_ne]
        intro hk
        exact hn.1 (List.mem_map.mpr ⟨(k, v), hm, hk⟩)
      simp only [List.lookup, hk]
      exact lookup_of_mem rest k v hn.2 hm

theorem isGroupChangedOf_address {valoper : String} {x : ReportEntry}
    (h : x.isGroupChangedOf valoper = true) : x.GetValidator.OperatorAddress = valoper := by
  cases x <;> simp_all [ReportEntry.isGroupChangedOf, ReportEntry.GetValidator]

theorem isJailedOf_address {valoper : String} {x : ReportEntry}
    (h : x.isJailedOf valoper = true) : x.GetValidator.OperatorAddress = valoper := by
  cases x <;> simp_all [ReportEntry.isJailedOf, ReportEntry.GetValidator]

theorem isUnjailedOf_address {valoper : String} {x : ReportEntry}
    (h : x.isUnjailedOf valoper = true) : x.GetValidator.OperatorAddress = valoper := by
  cases x <;> simp_all [ReportEntry.isUnjailedOf, ReportEntry.GetValidator]

/-- In the report of a keyed snapshot, the entries about one operator address
are those added by the loop body of that address. -/
theorem report_filter {snapshot older : Snapshot} {groups : MissedBlocksGroups}
    (hkey : snapshot.Keyed) (P : ReportEntry → Bool) {valoper : String} {entry : SnapshotEntry}
    (hP : ∀ x, P x = true → x.GetValidator.OperatorAddress = valoper)
    (hnew : (valoper, entry) ∈ snapshot.Entries) :
    (snapshot.Entries.flatMap
        (fun p => (Snapshot.GetReport.body older groups p.1 p.2).getD [])).filter P =
      ((Snapshot.GetReport.body older groups valoper entry).getD []).filter P := by
  rw [List.filter_flatMap]
  refine flatMap_single
    (fun p => List.filter P ((Snapshot.GetReport.body older groups p.1 p.2).getD []))
    snapshot.Entries valoper entry snapshot.keys_nodup hnew ?_
  intro p hp hne
  rw [List.filter_eq_nil_iff]
  intro x hx hPx
  apply hne
  cases hb : Snapshot.GetReport.body older groups p.1 p.2 with
  | none => rw [hb] at hx; simp at hx
  | some added =>
    rw [hb] at hx
    have hv := body_validator hb x hx
    rw [← hkey p hp, ← hv]
    exact hP x hPx

/-- What the loop body adds for a validator that is jailed in neither snapshot
and whose two counts fall into groups with different starts. -/
theorem body_group_changed {older : Snapshot} {groups : MissedBlocksGroups} {valoper : String}
    {entry olderEntry : SnapshotEntry} {beforeGroup afterGroup : MissedBlocksGroup}
    (hold : older.Entries.lookup valoper = some olderEntry)
    (hj1 : olderEntry.Validator.Jailed = false) (hj2 : entry.Validator.Jailed = false)
    (hb : groups.GetGroup olderEntry.SignatureInfo.GetNotSigned = some beforeGroup)
    (ha : groups.GetGroup entry.SignatureInfo.GetNotSigned = some afterGroup)
    (hne : beforeGroup.Start ≠ afterGroup.Start) :
    Snapshot.GetReport.body older groups valoper entry =
      some [ReportEntry.groupChanged
        { Validator := entry.Validator
          MissedBlocksBefore := olderEntry.SignatureInfo.GetNotSigned
          MissedBlocksAfter := entry.SignatureInfo.GetNotSigned
          MissedBlocksGroupBefore := beforeGroup
          MissedBlocksGroupAfter := afterGroup }] := by
  unfold Snapshot.GetReport.body
  simp [hold, hb, ha, hj1, hj2, hne]

/-- Claim C1. In a configuration of ordered, disjoint groups, for snapshots filed
by operator address whose common validators all fall into groups: a validator
present in both snapshots, jailed in neither, whose older and newer not-signed
counts fall into different groups, gets exactly one `ValidatorGroupChanged`
entry in the report `GetReport` returns, and that entry carries the newer
validator record, the older and the newer count, and the two groups. -/
theorem GetReport_group_changed (snapshot older : Snapshot) (groups : MissedBlocksGroups)
    (valoper : String) (entry olderEntry : SnapshotEntry)
    (beforeGroup afterGroup : MissedBlocksGroup)
    (hord : groups.Ordered) (hkey : snapshot.Keyed) (hgrp : snapshot.Grouped older groups)
    (hnew : (valoper, entry) ∈ snapshot.Entries)
    (hold : older.Entries.lookup valoper = some olderEntry)
    (hj1 : olderEntry.Validator.Jailed = false) (hj2 : entry.Validator.Jailed = false)
    (hb : groups.GetGroup olderEntry.SignatureInfo.GetNotSigned = some beforeGroup)
    (ha : groups.GetGroup entry.SignatureInfo.GetNotSigned = some afterGroup)
    (hne : beforeGroup ≠ afterGroup) :
    ∃ r, snapshot.GetReport older groups = some r ∧
      r.Entries.filter (ReportEntry.isGroupChangedOf valoper) =
        [ReportEntry.groupChanged
          { Validator := entry.Validator
            MissedBlocksBefore := olderEntry.SignatureInfo.GetNotSigned
            MissedBlocksAfter := entry.SignatureInfo.GetNotSigned
            MissedBlocksGroupBefore := beforeGroup
            MissedBlocksGroupAfter := afterGroup }] := by
  refine ⟨_, GetReport_eq hgrp, ?_⟩
  rw [report_filter hkey (ReportEntry.isGroupChangedOf valoper)
    (fun x hx => isGroupChangedOf_address hx) hnew]
  rw [body_group_changed hold hj1 hj2 hb ha (Ordered.start_ne hord hb ha hne)]
  have hk := hkey (valoper, entry) hnew
  simp only at hk
  simp [ReportEntry.isGroupChangedOf, hk]

/-- The scenario of C1: `V` missed 8 then 12 blocks; one `ValidatorGroupChanged`
with before 8, after 12, groups "OK" and "skipping". -/
theorem GetReport_group_changed_witness :
    ∃ r, (scenarioSnapshot false 12).GetReport (scenarioSnapshot false 8) scenarioGroups = some r ∧
      r.Entries.filter (ReportEntry.isGroupChangedOf "valoperV") =
        [ReportEntry.groupChanged
          { Validator := scenarioValidator false
            MissedBlocksBefore := 8
            MissedBlocksAfter := 12
            MissedBlocksGroupBefore :=
              { Start := 0, End := 9, EmojiStart := "🟢", EmojiEnd := "🟢",
                DescStart := "OK", DescEnd := "OK" }
            MissedBlocksGroupAfter :=
              { Start := 10, End := 49, EmojiStart := "🟡", EmojiEnd := "🟡",
                DescStart := "skipping", DescEnd := "skipping" } }] :=
  GetReport_group_changed (scenarioSnapshot false 12) (scenarioSnapshot false 8) scenarioGroups
    "valoperV"
    { Validator := scenarioValidator false
      SignatureInfo := { Proposed := 0, Signed := 88, NotSigned := 12 } }
    { Validator := scenarioValidator false
      SignatureInfo := { Proposed := 0, Signed := 92, NotSigned := 8 } }
    _ _
    (by decide) (by decide) (by decide) (by decide) (by decide) rfl rfl (by decide) (by decide)
    (by decide)

/-- The loop body adds nothing for a validator whose older entry is the same
as the newer one, provided its count falls into a group. -/
theorem body_identical {older : Snapshot} {groups : MissedBlocksGroups} {valoper : String}
    {entry : SnapshotEntry} (hold : older.Entries.lookup valoper = some entry)
    (hg : (groups.GetGroup entry.SignatureInfo.GetNotSigned).isSome = true) :
    Snapshot.GetReport.body older groups valoper entry = some [] := by
  obtain ⟨g, hg⟩ := Option.isSome_iff_exists.mp hg
  unfold Snapshot.GetReport.body
  simp [hold, hg]

/-- Claim C7, refuted as stated. With a configuration that has no group for the
count 8, `GetReport` on two identical snapshots holding a validator with 8
missed blocks does not return an empty report: it does not return at all. -/
theorem GetReport_gapped_groups_panics :
    (∀ valoper, (scenarioSnapshot false 8).Entries.lookup valoper =
        (scenarioSnapshot false 8).Entries.lookup valoper) ∧
    (scenarioSnapshot false 8).GetReport (scenarioSnapshot false 8) gappedGroups = none ∧
    (scenarioSnapshot false 8).GetReport (scenarioSnapshot false 8) gappedGroups ≠ some ⟨[]⟩ := by
  refine ⟨fun _ => rfl, by decide, by decide⟩

/-- Claim C7, amended. For two snapshots that map the same operator addresses to
the same entries, and a configuration in which the not-signed count of each of
these validators falls into a group, `GetReport` returns a report with no
entries. -/
theorem GetReport_identical (snapshot older : Snapshot) (groups : MissedBlocksGroups)
    (hsame : ∀ valoper, older.Entries.lookup valoper = snapshot.Entries.lookup valoper)
    (hgrp : snapshot.Grouped older groups) :
    snapshot.GetReport older groups = some ⟨[]⟩ := by
  rw [GetReport_eq hgrp]
  congr 2
  rw [List.flatMap_eq_nil_iff]
  intro p hp
  have hl : older.Entries.lookup p.1 = some p.2 := by
    rw [hsame]
    exact lookup_of_mem snapshot.Entries p.1 p.2 snapshot.keys_nodup hp
  have hg := (hgrp p hp p.2 (by simp [hl])).2
  rw [body_identical hl hg]
  rfl

/-- The scenario's snapshot against itself, with the scenario's groups. -/
theorem GetReport_identical_witness :
    (scenarioSnapshot false 8).GetReport (scenarioSnapshot false 8) scenarioGroups = some ⟨[]⟩ :=
  GetReport_identical (scenarioSnapshot false 8) (scenarioSnapshot false 8) scenarioGroups
    (fun _ => rfl) (by decide)

theorem exists_mem_iff_filter_ne_nil {α : Type} (P : α → Bool) (l : List α) :
    (∃ x ∈ l, P x = true) ↔ l.filter P ≠ [] := by
  rw [Ne, List.filter_eq_nil_iff]
  push_neg
  rfl

/-- The jail entries the loop body adds for a validator present in both
snapshots whose counts fall into groups. -/
theorem body_jail_entries {older : Snapshot} {groups : MissedBlocksGroups} {valoper : String}
    {entry olderEntry : SnapshotEntry}
    (hold : older.Entries.lookup valoper = some olderEntry)
    (hk : entry.Validator.OperatorAddress = valoper)
    (hsome : (Snapshot.GetReport.body older groups valoper entry).isSome = true) :
    (((Snapshot.GetReport.body older groups valoper entry).getD []).filter
        (ReportEntry.isJailedOf valoper) ≠ [] ↔
      (olderEntry.Validator.Jailed = false ∧ entry.Validator.Jailed = true)) ∧
    (((Snapshot.GetReport.body older groups valoper entry).getD []).filter
        (ReportEntry.isUnjailedOf valoper) ≠ [] ↔
      (olderEntry.Validator.Jailed = true ∧ entry.Validator.Jailed = false)) := by
  unfold Snapshot.GetReport.body at hsome ⊢
  rw [hold] at hsome ⊢
  simp only at hsome ⊢
  cases hgb : groups.GetGroup olderEntry.SignatureInfo.GetNotSigned with
  | none => rw [hgb] at hsome; simp at hsome
  | some gb =>
    cases hga : groups.GetGroup entry.SignatureInfo.GetNotSigned with
    | none => rw [hgb, hga] at hsome; simp at hsome
    | some ga =>
      simp only [Option.getD_some]
      cases hj1 : olderEntry.Validator.Jailed <;> cases hj2 : entry.Validator.Jailed <;>
        by_cases hs : gb.Start = ga.Start <;>
        simp [hs, hk, List.filter, ReportEntry.isJailedOf, ReportEntry.isUnjailedOf]

/-- Claim C8. For snapshots filed by operator address whose common validators
all fall into groups, and a validator present in both: the report returned by
`GetReport` has a `ValidatorJailed` entry for it exactly when its jailed flag
is false in the older and true in the newer snapshot, a `ValidatorUnjailed`
entry exactly when the flag is true in the older and false in the newer, and
never both. -/
theorem GetReport_jail_entries (snapshot older : Snapshot) (groups : MissedBlocksGroups)
    (valoper : String) (entry olderEntry : SnapshotEntry)
    (hkey : snapshot.Keyed) (hgrp : snapshot.Grouped older groups)
    (hnew : (valoper, entry) ∈ snapshot.Entries)
    (hold : older.Entries.lookup valoper = some olderEntry) :
    ∃ r, snapshot.GetReport older groups = some r ∧
      ((∃ x ∈ r.Entries, x.isJailedOf valoper = true) ↔
        (olderEntry.Validator.Jailed = false ∧ entry.Validator.Jailed = true)) ∧
      ((∃ x ∈ r.Entries, x.isUnjailedOf valoper = true) ↔
        (olderEntry.Validator.Jailed = true ∧ entry.Validator.Jailed = false)) ∧
      ¬ ((∃ x ∈ r.Entries, x.isJailedOf valoper = true) ∧
         (∃ x ∈ r.Entries, x.isUnjailedOf valoper = true)) := by
  refine ⟨_, GetReport_eq hgrp, ?_⟩
  have hk := hkey (valoper, entry) hnew
  simp only at hk
  have hsome := body_isSome_of_grouped hgrp (valoper, entry) hnew
  simp only at hsome
  obtain ⟨h1, h2⟩ := @body_jail_entries older groups valoper entry olderEntry hold hk hsome
  have e1 := @report_filter snapshot older groups hkey
    (ReportEntry.isJailedOf valoper) valoper entry (fun x hx => isJailedOf_address hx) hnew
  have e2 := @report_filter snapshot older groups hkey
    (ReportEntry.isUnjailedOf valoper) valoper entry (fun x hx => isUnjailedOf_address hx) hnew
  simp only [exists_mem_iff_filter_ne_nil, e1, e2]
  refine ⟨h1, h2, ?_⟩
  rw [h1, h2]
  rintro ⟨⟨ha, _⟩, ⟨hb, _⟩⟩
  rw [ha] at hb
  cases hb

/-- The jail scenario: `V` goes from not jailed to jailed. -/
theorem GetReport_jail_entries_witness :
    ∃ r, (scenarioSnapshot true 8).GetReport (scenarioSnapshot false 8) scenarioGroups = some r ∧
      ((∃ x ∈ r.Entries, x.isJailedOf "valoperV" = true) ↔
        ((scenarioValidator false).Jailed = false ∧ (scenarioValidator true).Jailed = true)) ∧
      ((∃ x ∈ r.Entries, x.isUnjailedOf "valoperV" = true) ↔
        ((scenarioValidator false).Jailed = true ∧ (scenarioValidator true).Jailed = false)) ∧
      ¬ ((∃ x ∈ r.Entries, x.isJailedOf "valoperV" = true) ∧
         (∃ x ∈ r.Entries, x.isUnjailedOf "valoperV" = true)) :=
  GetReport_jail_entries (scenarioSnapshot true 8) (scenarioSnapshot false 8) scenarioGroups
    "valoperV"
    { Validator := scenarioValidator true
      SignatureInfo := { Proposed := 0, Signed := 92, NotSigned := 8 } }
    { Validator := scenarioValidator false
      SignatureInfo := { Proposed := 0, Signed := 92, NotSigned := 8 } }
    (by decide) (by decide) (by decide) (by decide)

/-! ## The dedup queue -/

/-- One `Add` on a queue that holds the last `k` of the elements added so far. -/
theorem Queue.Add_last (k : Nat) (hk : 1 ≤ k) (l : List WebsocketEmittable)
    (e : WebsocketEmittable) :
    Queue.Add { Data := l.drop (l.length - k), Size := (k : Int) } e =
      some { Data := (l ++ [e]).drop ((l ++ [e]).length - k), Size := (k : Int) } := by
  unfold Queue.Add
  simp only [List.length_drop, List.length_append, List.length_singleton]
  by_cases h : k ≤ l.length
  · have h1 : ((k : Int) ≤ ((l.length - (l.length - k) : Nat) : Int)) := by omega
    rw [if_pos h1]
    have h2 : l.length - k < l.length := by omega
    rw [List.drop_eq_getElem_cons h2]
    simp only [Option.some.injEq, Queue.mk.injEq, and_true]
    have h3 : l.length + 1 - k = (l.length - k) + 1 := by omega
    rw [h3, List.drop_append_of_le_length (by omega)]
  · have h1 : ¬ ((k : Int) ≤ ((l.length - (l.length - k) : Nat) : Int)) := by omega
    rw [if_neg h1]
    have h2 : l.length - k = 0 := by omega
    have h3 : l.length + 1 - k = 0 := by omega
    simp [h2, h3]

theorem Queue.AddAll_append (q : Queue) (l₁ l₂ : List WebsocketEmittable) :
    q.AddAll (l₁ ++ l₂) = (q.AddAll l₁).bind (fun q' => q'.AddAll l₂) := by
  induction l₁ generalizing q with
  | nil => simp [Queue.AddAll]
  | cons e rest ih =>
    simp only [List.cons_append, Queue.AddAll]
    cases q.Add e with
    | none => rfl
    | some q' => exact ih q'

/-- After any sequence of `Add` calls a queue of size `k ≥ 1` holds the last
`k` elements added. -/
theorem Queue.AddAll_last (k : Nat) (hk : 1 ≤ k) (l : List WebsocketEmittable) :
    (NewQueue (k : Int)).AddAll l =
      some { Data := l.drop (l.length - k), Size := (k : Int) } := by
  induction l using List.reverseRecOn with
  | nil => simp [Queue.AddAll, NewQueue]
  | append_singleton l e ih =>
    rw [Queue.AddAll_append, ih]
    simp only [Option.some_bind, Queue.AddAll]
    rw [Queue.Add_last k hk l e]

/-- Claim C4. For a size `S ≥ 1` and any sequence of `Add` calls on `NewQueue(S)`:
no call panics, `Data` is the last `min(n, S)` added elements in insertion
order (so at most `S` elements, the oldest evicted first), and `Has(e)` holds
exactly when a retained element has the hash of `e`. -/
theorem Queue_retains_last (S : Int) (hS : 1 ≤ S) (added : List WebsocketEmittable) :
    ∃ q, (NewQueue S).AddAll added = some q ∧
      q.Data = added.drop (added.length - S.toNat) ∧
      q.Data.length = min added.length S.toNat ∧
      (q.Data.length : Int) ≤ S ∧
      ∀ e, q.Has e = true ↔ ∃ x ∈ added.drop (added.length - S.toNat), x.Hash = e.Hash := by
  obtain ⟨k, rfl⟩ : ∃ k : Nat, S = (k : Int) := ⟨S.toNat, by omega⟩
  have hk : 1 ≤ k := by omega
  refine ⟨_, Queue.AddAll_last k hk added, ?_⟩
  simp only [Int.toNat_ofNat, List.length_drop, true_and]
  refine ⟨by omega, by omega, ?_⟩
  intro e
  simp [Queue.Has]

/-- The overflow scenario: size 3, four elements with distinct hashes added;
the first is gone and the fourth is there. -/
theorem Queue_retains_last_witness :
    ∃ q, (NewQueue 3).AddAll [⟨"h1", "e1"⟩, ⟨"h2", "e2"⟩, ⟨"h3", "e3"⟩, ⟨"h4", "e4"⟩] = some q ∧
      q.Data = [⟨"h2", "e2"⟩, ⟨"h3", "e3"⟩, ⟨"h4", "e4"⟩] ∧
      q.Has ⟨"h1", "e1"⟩ = false ∧ q.Has ⟨"h4", "e4"⟩ = true := by
  obtain ⟨q, hq, hd, -, -, -⟩ := Queue_retains_last 3 (by decide)
    [⟨"h1", "e1"⟩, ⟨"h2", "e2"⟩, ⟨"h3", "e3"⟩, ⟨"h4", "e4"⟩]
  refine ⟨q, hq, hd, ?_, ?_⟩
  · rw [Queue.Has, hd]; decide
  · rw [Queue.Has, hd]; decide

/-! ## The websocket manager -/

theorem WebsocketManager.consumeAll_append (m : WebsocketManager)
    (l₁ l₂ : List WebsocketEmittable) :
    m.consumeAll (l₁ ++ l₂) = (m.consumeAll l₁).bind (fun m' => m'.consumeAll l₂) := by
  induction l₁ generalizing m with
  | nil => simp [WebsocketManager.consumeAll]
  | cons e rest ih =>
    simp only [List.cons_append, WebsocketManager.consumeAll]
    cases m.consume e with
    | none => rfl
    | some m' => exact ih m'

/-- One run of the consumer body from a synced state: it does not panic, it
keeps the state synced, and it sends the message exactly when the queue does
not have it. -/
theorem WebsocketManager.consume_synced (m : WebsocketManager) (hm : m.Synced)
    (msg : WebsocketEmittable) :
    ∃ m', m.consume msg = some m' ∧ m'.Synced ∧
      (m.queue.Has msg = true → m'.Channel = m.Channel) ∧
      (m.queue.Has msg = false → m'.Channel = m.Channel ++ [msg]) := by
  unfold WebsocketManager.consume
  cases hh : m.queue.Has msg with
  | true => exact ⟨m, by simp, hm, fun _ => rfl, fun h => by cases h⟩
  | false =>
    have hadd := Queue.Add_last 100 (by decide) m.Channel msg
    unfold WebsocketManager.Synced at hm
    simp only [Nat.cast_ofNat] at hadd
    simp only [Bool.false_eq_true, if_false]
    rw [hm, hadd]
    exact ⟨{ queue := { Data := (m.Channel ++ [msg]).drop ((m.Channel ++ [msg]).length - 100),
                        Size := 100 },
             Channel := m.Channel ++ [msg] },
      rfl, rfl, fun h => h.elim, fun _ => rfl⟩

/-- Every state reached from `NewWebsocketManager` is synced, and is reached. -/
theorem WebsocketManager.consumeAll_synced (inbound : List WebsocketEmittable) :
    ∃ m, NewWebsocketManager.consumeAll inbound = some m ∧ m.Synced := by
  induction inbound using List.reverseRecOn with
  | nil =>
    exact ⟨NewWebsocketManager, rfl, by simp [WebsocketManager.Synced, NewWebsocketManager, NewQueue]⟩
  | append_singleton l e ih =>
    obtain ⟨m, hm, hs⟩ := ih
    obtain ⟨m', hm', hs', -, -⟩ := WebsocketManager.consume_synced m hs e
    refine ⟨m', ?_, hs'⟩
    rw [WebsocketManager.consumeAll_append, hm]
    simp [WebsocketManager.consumeAll, hm']

/-- Claim C3. With the consumer body run as a sequential step from
`NewWebsocketManager`: after any sequence of inbound messages the next message
`msg` is either sent on `Channel` or dropped, and it is sent exactly when no
message with its hash is among the last 100 messages sent before it; and the
same message fed twice to the fresh manager is sent once. -/
theorem WebsocketManager_dedup (inbound : List WebsocketEmittable) (msg : WebsocketEmittable) :
    (∃ m m', NewWebsocketManager.consumeAll inbound = some m ∧
      NewWebsocketManager.consumeAll (inbound ++ [msg]) = some m' ∧
      m.consume msg = some m' ∧
      (m'.Channel = m.Channel ++ [msg] ∨ m'.Channel = m.Channel) ∧
      (m'.Channel = m.Channel ++ [msg] ↔
        ¬ ∃ x ∈ m.Channel.drop (m.Channel.length - 100), x.Hash = msg.Hash)) ∧
    (NewWebsocketManager.consumeAll [msg, msg]).map (fun m => m.Channel) = some [msg] := by
  constructor
  · obtain ⟨m, hm, hs⟩ := WebsocketManager.consumeAll_synced inbound
    obtain ⟨m', hm', -, hyes, hno⟩ := WebsocketManager.consume_synced m hs msg
    refine ⟨m, m', hm, ?_, hm', ?_, ?_⟩
    · rw [WebsocketManager.consumeAll_append, hm]
      simp [WebsocketManager.consumeAll, hm']
    · cases hh : m.queue.Has msg with
      | true => exact Or.inr (hyes hh)
      | false => exact Or.inl (hno hh)
    · have hhas : m.queue.Has msg = true ↔
          ∃ x ∈ m.Channel.drop (m.Channel.length - 100), x.Hash = msg.Hash := by
        unfold WebsocketManager.Synced at hs
        rw [hs]
        simp [Queue.Has]
      rw [← hhas]
      cases hh : m.queue.Has msg with
      | true =>
        rw [hyes hh]
        simp
      | false =>
        rw [hno hh]
        simp
  · simp [WebsocketManager.consumeAll, WebsocketManager.consume, Queue.Has, Queue.Add,
      NewWebsocketManager, NewQueue]

/-! ## `RPC.Get` -/

/-- With every index in range the loop does not panic, and it ends in
`return nil` exactly when one of the indexes has an accepting endpoint. -/
theorem RPC.Get.loop_nil_iff (RPCEndpoints : List String) (outcome : Nat → Outcome) :
    ∀ (indexes : List Nat) (errors : List (Option String)),
      (∀ i ∈ indexes, i < RPCEndpoints.length) →
      (RPC.Get.loop RPCEndpoints outcome indexes errors = LoopEnd.returnedNil ↔
        ∃ i ∈ indexes, outcome i = Outcome.accepted) ∧
      RPC.Get.loop RPCEndpoints outcome indexes errors ≠ LoopEnd.panicked
  | [], errors, _ => by simp [RPC.Get.loop]
  | index :: rest, errors, h => by
    have hlt : index < RPCEndpoints.length := h index (List.mem_cons_self _ _)
    have hrest : ∀ i ∈ rest, i < RPCEndpoints.length :=
      fun i hi => h i (List.mem_cons_of_mem _ hi)
    have hget : RPCEndpoints[index]? = some RPCEndpoints[index] := List.getElem?_eq_getElem hlt
    simp only [RPC.Get.loop, hget]
    cases ho : outcome index with
    | failed err =>
      have ih := RPC.Get.loop_nil_iff RPCEndpoints outcome rest (errors.set index (some err)) hrest
      simp only
      refine ⟨?_, ih.2⟩
      rw [ih.1]
      simp [ho]
    | rejected predicateErr =>
      have ih := RPC.Get.loop_nil_iff RPCEndpoints outcome rest
        (errors.set index (some "precondition failed")) hrest
      simp only
      refine ⟨?_, ih.2⟩
      rw [ih.1]
      simp [ho]
    | accepted =>
      simp only
      exact ⟨⟨fun _ => ⟨index, List.mem_cons_self _ _, ho⟩, fun _ => trivial⟩, by simp⟩

/-- When no visited endpoint accepts, the loop runs out of indexes having
recorded the reason of each visited endpoint in its slot. -/
theorem RPC.Get.loop_exhausted (RPCEndpoints : List String) (outcome : Nat → Outcome) :
    ∀ (indexes : List Nat) (errors : List (Option String)),
      (∀ i ∈ indexes, i < RPCEndpoints.length) →
      (∀ i ∈ indexes, outcome i ≠ Outcome.accepted) →
      RPC.Get.loop RPCEndpoints outcome indexes errors =
        LoopEnd.exhausted (indexes.foldl (fun es i => es.set i (outcome i).reason) errors)
  | [], errors, _, _ => by simp [RPC.Get.loop]
  | index :: rest, errors, h, hf => by
    have hlt : index < RPCEndpoints.length := h index (List.mem_cons_self _ _)
    have hrest : ∀ i ∈ rest, i < RPCEndpoints.length :=
      fun i hi => h i (List.mem_cons_of_mem _ hi)
    have hfrest : ∀ i ∈ rest, outcome i ≠ Outcome.accepted :=
      fun i hi => hf i (List.mem_cons_of_mem _ hi)
    have hget : RPCEndpoints[index]? = some RPCEndpoints[index] := List.getElem?_eq_getElem hlt
    simp only [RPC.Get.loop, hget, List.foldl_cons]
    cases ho : outcome index with
    | failed err =>
      simp only [Outcome.reason]
      exact RPC.Get.loop_exhausted RPCEndpoints outcome rest _ hrest hfrest
    | rejected predicateErr =>
      simp only [Outcome.reason]
      exact RPC.Get.loop_exhausted RPCEndpoints outcome rest _ hrest hfrest
    | accepted => exact absurd ho (hf index (List.mem_cons_self _ _))

theorem foldl_set_length (outcome : Nat → Outcome) (indexes : List Nat)
    (errors : List (Option String)) :
    (indexes.foldl (fun es i => es.set i (outcome i).reason) errors).length = errors.length := by
  induction indexes generalizing errors with
  | nil => rfl
  | cons i rest ih => rw [List.foldl_cons, ih, List.length_set]

/-- After the recording, the slot of a visited index holds its reason. -/
theorem foldl_set_getD (outcome : Nat → Outcome) (indexes : List Nat)
    (errors : List (Option String)) (i : Nat) (hi : i ∈ indexes) (hlt : i < errors.length) :
    (indexes.foldl (fun es i => es.set i (outcome i).reason) errors).getD i none =
      (outcome i).reason := by
  induction indexes using List.reverseRecOn with
  | nil => simp at hi
  | append_singleton l a ih =>
    rw [List.foldl_append, List.foldl_cons, List.foldl_nil, List.getD_eq_getElem?_getD]
    by_cases hia : a = i
    · subst hia
      rw [List.getElem?_set_self (by rw [foldl_set_length]; exact hlt)]
      rfl
    · rw [List.getElem?_set_ne hia, ← List.getD_eq_getElem?_getD]
      apply ih
      rcases List.mem_append.mp hi with h | h
      · exact h
      · simp at h; exact absurd h.symm hia

/-- Claim C2. For every list of endpoints, every order of the indexes the shuffle
produces and every outcome per endpoint, `RPC.Get` returns nil exactly when one
endpoint's response is decoded and accepted by the predicate, and it returns an
error when none is. -/
theorem RPC_Get_nil_iff (RPCEndpoints : List String) (indexes : List Nat)
    (outcome : Nat → Outcome) (hperm : indexes.Perm (List.range RPCEndpoints.length)) :
    (RPC.Get RPCEndpoints indexes outcome = some none ↔
      ∃ i, i < RPCEndpoints.length ∧ outcome i = Outcome.accepted) ∧
    ((¬ ∃ i, i < RPCEndpoints.length ∧ outcome i = Outcome.accepted) →
      ∃ text, RPC.Get RPCEndpoints indexes outcome = some (some text)) := by
  have hmem : ∀ i, i ∈ indexes ↔ i < RPCEndpoints.length := fun i => by
    rw [hperm.mem_iff, List.mem_range]
  have hloop := RPC.Get.loop_nil_iff RPCEndpoints outcome indexes
    (List.replicate RPCEndpoints.length none) (fun i hi => (hmem i).mp hi)
  have hiff : RPC.Get RPCEndpoints indexes outcome = some none ↔
      ∃ i, i < RPCEndpoints.length ∧ outcome i = Outcome.accepted := by
    have : (∃ i ∈ indexes, outcome i = Outcome.accepted) ↔
        ∃ i, i < RPCEndpoints.length ∧ outcome i = Outcome.accepted := by
      simp only [hmem]
    rw [← this, ← hloop.1]
    unfold RPC.Get
    cases RPC.Get.loop RPCEndpoints outcome indexes (List.replicate RPCEndpoints.length none)
      <;> simp
  refine ⟨hiff, fun hnone => ?_⟩
  have hne : RPC.Get RPCEndpoints indexes outcome ≠ some none := fun h => hnone (hiff.mp h)
  have hp := hloop.2
  unfold RPC.Get at hne ⊢
  cases hl : RPC.Get.loop RPCEndpoints outcome indexes (List.replicate RPCEndpoints.length none) with
  | returnedNil => rw [hl] at hne; exact absurd rfl hne
  | panicked => exact absurd hl hp
  | exhausted errors => exact ⟨_, rfl⟩

/-- Three endpoints tried in the order 2, 0, 1, of which only the second
accepts: the query succeeds. -/
theorem RPC_Get_nil_iff_witness :
    (RPC.Get ["A", "B", "C"] [2, 0, 1]
        (fun i => if i = 1 then Outcome.accepted else Outcome.failed "timeout") = some none ↔
      ∃ i, i < ["A", "B", "C"].length ∧
        (fun i => if i = 1 then Outcome.accepted else Outcome.failed "timeout") i =
          Outcome.accepted) ∧
    ((¬ ∃ i, i < ["A", "B", "C"].length ∧
        (fun i => if i = 1 then Outcome.accepted else Outcome.failed "timeout") i =
          Outcome.accepted) →
      ∃ text, RPC.Get ["A", "B", "C"] [2, 0, 1]
        (fun i => if i = 1 then Outcome.accepted else Outcome.failed "timeout") =
          some (some text)) :=
  RPC_Get_nil_iff ["A", "B", "C"] [2, 0, 1]
    (fun i => if i = 1 then Outcome.accepted else Outcome.failed "timeout") (by decide)

/-- A format without `%` is written out unchanged. -/
theorem Fmt.doPrintf_plain : ∀ (n : Nat) (cs : List Char),
    cs.length ≤ n → '%' ∉ cs → Fmt.doPrintf n cs = cs
  | 0, [], _, _ => rfl
  | 0, _ :: _, h, _ => by simp at h
  | _ + 1, [], _, _ => rfl
  | n + 1, c :: cs, h, hp => by
    have hc : c ≠ '%' := fun hc => hp (hc ▸ List.mem_cons_self _ _)
    have hcs : '%' ∉ cs := fun hcs => hp (List.mem_cons_of_mem _ hcs)
    simp only [Fmt.doPrintf, if_neg hc]
    rw [Fmt.doPrintf_plain n cs (by simpa using h) hcs]

theorem Fmt.Errorf_plain (format : String) (h : '%' ∉ format.data) :
    Fmt.Errorf format = format := by
  unfold Fmt.Errorf
  rw [Fmt.doPrintf_plain _ _ (le_refl _) h]

/-- When every endpoint fails, whatever the order of the attempts, `RPC.Get`
returns the error made by `fmt.Errorf` from the format that lists the endpoints
in configured order, each with the reason recorded for it. -/
theorem RPC.Get_all_failed (RPCEndpoints : List String) (indexes : List Nat)
    (outcome : Nat → Outcome) (hperm : indexes.Perm (List.range RPCEndpoints.length))
    (hfail : ∀ i, i < RPCEndpoints.length → outcome i ≠ Outcome.accepted) :
    RPC.Get RPCEndpoints indexes outcome =
      some (some (Fmt.Errorf ("All LCD requests failed:\n" ++
        String.join (RPCEndpoints.enum.map (fun p =>
          "#" ++ toString (p.1 + 1) ++ ": " ++ p.2 ++ " -> " ++
            Fmt.errorText (outcome p.1).reason ++ "\n"))))) := by
  have hmem : ∀ i, i ∈ indexes ↔ i < RPCEndpoints.length := fun i => by
    rw [hperm.mem_iff, List.mem_range]
  unfold RPC.Get
  rw [RPC.Get.loop_exhausted RPCEndpoints outcome indexes _ (fun i hi => (hmem i).mp hi)
    (fun i hi => hfail i ((hmem i).mp hi))]
  simp only [RPC.Get.text]
  congr 5
  apply List.map_congr_left
  intro p hp
  have hlt := List.fst_lt_of_mem_enum hp
  simp only [RPC.Get.line]
  rw [foldl_set_getD outcome indexes _ p.1 ((hmem p.1).mpr hlt) (by simpa using hlt)]

/-- The same, for endpoints and reasons without `%`: the text of the error is
the listing itself. -/
theorem RPC.Get_all_failed_plain (RPCEndpoints : List String) (indexes : List Nat)
    (outcome : Nat → Outcome) (hperm : indexes.Perm (List.range RPCEndpoints.length))
    (hfail : ∀ i, i < RPCEndpoints.length → outcome i ≠ Outcome.accepted)
    (hplain : '%' ∉ ("All LCD requests failed:\n" ++
        String.join (RPCEndpoints.enum.map (fun p =>
          "#" ++ toString (p.1 + 1) ++ ": " ++ p.2 ++ " -> " ++
            Fmt.errorText (outcome p.1).reason ++ "\n"))).data) :
    RPC.Get RPCEndpoints indexes outcome =
      some (some ("All LCD requests failed:\n" ++
        String.join (RPCEndpoints.enum.map (fun p =>
          "#" ++ toString (p.1 + 1) ++ ": " ++ p.2 ++ " -> " ++
            Fmt.errorText (outcome p.1).reason ++ "\n")))) := by
  rw [RPC.Get_all_failed RPCEndpoints indexes outcome hperm hfail, Fmt.Errorf_plain _ hplain]

/-- Claim C9, the failing input. One endpoint, `http://a`, that fails an ABCI
query with the error of Go's HTTP client.  The text of the error `RPC.Get`
returns names the endpoint but does not hold the failure reason: `fmt.Errorf`
has read the `%22x` and `%22"` of the reason as verbs without operands. -/
theorem RPC_Get_error_percent :
    RPC.Get ["http://a"] [0] (fun _ => Outcome.failed abciFailure) =
      some (some
        "All LCD requests failed:\n#1: http://a -> Get \"http://a/abci_query?path=%!x(MISSING)%!\"(MISSING): EOF\n") ∧
    Text.occursIn "http://a".data
      "All LCD requests failed:\n#1: http://a -> Get \"http://a/abci_query?path=%!x(MISSING)%!\"(MISSING): EOF\n".data
        = true ∧
    Text.occursIn abciFailure.data
      "All LCD requests failed:\n#1: http://a -> Get \"http://a/abci_query?path=%!x(MISSING)%!\"(MISSING): EOF\n".data
        = false := by
  refine ⟨by decide, by decide, by decide⟩

/-! ## `Manager.AddNotifier`, `Manager.RemoveNotifier` -/

theorem Manager.AddNotifier_state (m : Manager) (a r n : String) (insertErr : Option String) :
    (m.AddNotifier a r n insertErr).1.state = (m.state.AddNotifier a r n).1 := by
  unfold Manager.AddNotifier
  cases h : (m.state.AddNotifier a r n).2 <;> cases insertErr <;> simp [h]

theorem Manager.RemoveNotifier_state (m : Manager) (a r n : String) (removeErr : Option String) :
    (m.RemoveNotifier a r n removeErr).1.state = (m.state.RemoveNotifier a r n).1 := by
  unfold Manager.RemoveNotifier
  cases h : (m.state.RemoveNotifier a r n).2 <;> cases removeErr <;> simp [h]

/-- After `State.AddNotifier` the state has the subscription. -/
theorem State.AddNotifier_mem (s : State) (a r n : String) :
    (⟨a, r, n⟩ : Subscription) ∈ (s.AddNotifier a r n).1.notifiers := by
  unfold State.AddNotifier
  split
  · assumption
  · simp

/-- After `State.RemoveNotifier` the state does not have the subscription. -/
theorem State.RemoveNotifier_not_mem (s : State) (a r n : String) :
    (⟨a, r, n⟩ : Subscription) ∉ (s.RemoveNotifier a r n).1.notifiers := by
  unfold State.RemoveNotifier
  split
  · simp
  · assumption

/-- `Manager.AddNotifier` returns false on a state that has the subscription. -/
theorem Manager.AddNotifier_of_mem (m : Manager) (a r n : String) (insertErr : Option String)
    (h : (⟨a, r, n⟩ : Subscription) ∈ m.state.notifiers) :
    (m.AddNotifier a r n insertErr).2 = false := by
  unfold Manager.AddNotifier State.AddNotifier
  simp [h]

/-- `Manager.AddNotifier` returns true on a state that lacks the subscription,
when the database insert succeeds. -/
theorem Manager.AddNotifier_of_not_mem (m : Manager) (a r n : String)
    (h : (⟨a, r, n⟩ : Subscription) ∉ m.state.notifiers) :
    (m.AddNotifier a r n none).2 = true := by
  unfold Manager.AddNotifier State.AddNotifier
  simp [h]

/-- Claim C10. For every manager state and every triple: the second of two
`AddNotifier` calls in a row returns false, whatever the database answered; and
`AddNotifier` right after `RemoveNotifier` returns true when the database
writes succeed. -/
theorem Manager_notifier_uniqueness (m : Manager) (a r n : String)
    (insertErr₁ insertErr₂ : Option String) :
    ((m.AddNotifier a r n insertErr₁).1.AddNotifier a r n insertErr₂).2 = false ∧
    ((m.RemoveNotifier a r n none).1.AddNotifier a r n none).2 = true := by
  constructor
  · apply Manager.AddNotifier_of_mem
    rw [Manager.AddNotifier_state]
    exact State.AddNotifier_mem m.state a r n
  · apply Manager.AddNotifier_of_not_mem
    rw [Manager.RemoveNotifier_state]
    exact State.RemoveNotifier_not_mem m.state a r n

/-! ## `Manager.AddBlock` -/

theorem maxHeight_ge : ∀ (l : List Block) (h : Int), maxHeight l = some h →
    ∀ b ∈ l, b.Height ≤ h
  | [], _, hm, _, hb => by simp at hb
  | a :: rest, h, hm, b, hb => by
    simp only [maxHeight] at hm
    cases hr : maxHeight rest with
    | none =>
      rw [hr] at hm
      simp only [Option.some.injEq] at hm
      have : rest = [] := by
        cases rest with
        | nil => rfl
        | cons c tl =>
          simp only [maxHeight] at hr
          cases h' : maxHeight tl <;> rw [h'] at hr <;> simp at hr
      subst this
      simp only [List.mem_singleton] at hb
      subst hb
      omega
    | some g =>
      rw [hr] at hm
      simp only [Option.some.injEq] at hm
      rcases List.mem_cons.mp hb with rfl | hb
      · omega
      · have := maxHeight_ge rest g hr b hb
        omega

theorem maxHeight_mem : ∀ (l : List Block) (h : Int), maxHeight l = some h →
    ∃ b ∈ l, b.Height = h
  | [], _, hm => by simp [maxHeight] at hm
  | a :: rest, h, hm => by
    simp only [maxHeight] at hm
    cases hr : maxHeight rest with
    | none =>
      rw [hr] at hm
      simp only [Option.some.injEq] at hm
      exact ⟨a, List.mem_cons_self _ _, hm⟩
    | some g =>
      rw [hr] at hm
      simp only [Option.some.injEq] at hm
      obtain ⟨b, hb, hbg⟩ := maxHeight_mem rest g hr
      rcases le_total a.Height g with hle | hle
      · exact ⟨b, List.mem_cons_of_mem _ hb, by omega⟩
      · exact ⟨a, List.mem_cons_self _ _, by omega⟩

theorem maxHeight_isSome : ∀ (l : List Block), l ≠ [] → ∃ h, maxHeight l = some h
  | [], hne => absurd rfl hne
  | a :: rest, _ => by
    simp only [maxHeight]
    cases maxHeight rest with
    | none => exact ⟨_, rfl⟩
    | some g => exact ⟨_, rfl⟩

/-- The last block height of a state is the height of one of its blocks
exactly when no block of the state is higher. -/
theorem State.GetLastBlockHeight_eq_iff (s : State) (b : Block) (hb : b ∈ s.blocks) :
    s.GetLastBlockHeight = b.Height ↔ ∀ x ∈ s.blocks, x.Height ≤ b.Height := by
  obtain ⟨h, hh⟩ := maxHeight_isSome s.blocks (List.ne_nil_of_mem hb)
  unfold State.GetLastBlockHeight
  rw [hh, Option.getD_some]
  constructor
  · intro heq x hx
    rw [← heq]
    exact maxHeight_ge s.blocks h hh x hx
  · intro hall
    obtain ⟨c, hc, hch⟩ := maxHeight_mem s.blocks h hh
    have h1 := hall c hc
    have h2 := maxHeight_ge s.blocks h hh b hb
    omega

theorem State.AddBlock_mem (s : State) (block : Block) : block ∈ (s.AddBlock block).blocks := by
  simp [State.AddBlock]

theorem State.AddBlock_le (s : State) (block : Block)
    (hmax : ∀ x ∈ s.blocks, x.Height ≤ block.Height) :
    ∀ x ∈ (s.AddBlock block).blocks, x.Height ≤ block.Height := by
  intro x hx
  simp only [State.AddBlock, List.mem_append, List.mem_filter, List.mem_singleton] at hx
  rcases hx with ⟨hx, -⟩ | rfl
  · exact hmax x hx
  · exact le_refl _

/-- The in-memory state after an `AddBlock` call whose block is at least as
high as every block of the state and whose database insert succeeds. -/
theorem Manager.AddBlock_state (m : Manager) (block : Block) (trimErr : Option String)
    (hmax : ∀ x ∈ m.state.blocks, x.Height ≤ block.Height) :
    (m.AddBlock block none trimErr).1.state =
      (m.state.AddBlock block).TrimBlocksBefore (wrapInt64 (block.Height - m.StoreBlocks)) := by
  have hlast : (m.state.AddBlock block).GetLastBlockHeight = block.Height :=
    (State.GetLastBlockHeight_eq_iff _ block (State.AddBlock_mem _ _)).mpr
      (State.AddBlock_le _ _ hmax)
  unfold Manager.AddBlock
  simp only [hlast, if_true]
  cases trimErr <;> rfl

/-- One `AddBlock` call that sets or repeats the maximum leaves the state
within the window, from any state. -/
theorem Manager.AddBlock_within (m : Manager) (block : Block) (trimErr : Option String)
    (hov : block.Height - m.StoreBlocks < 9223372036854775808)
    (hmax : ∀ x ∈ m.state.blocks, x.Height ≤ block.Height) :
    (m.AddBlock block none trimErr).1.state.Within m.StoreBlocks := by
  rw [Manager.AddBlock_state m block trimErr hmax]
  intro x hx y hy
  simp only [State.TrimBlocksBefore, List.mem_filter, decide_eq_true_eq] at hx hy
  have hx1 := State.AddBlock_le _ _ hmax x hx.1
  have hy1 := State.AddBlock_le _ _ hmax y hy.1
  have hy2 := hy.2
  unfold wrapInt64 at hy2
  omega

theorem Manager.AddBlock_StoreBlocks (m : Manager) (block : Block)
    (insertErr trimErr : Option String) :
    (m.AddBlock block insertErr trimErr).1.StoreBlocks = m.StoreBlocks := by
  unfold Manager.AddBlock
  cases insertErr <;> cases trimErr <;> simp only <;> split <;> rfl

theorem Manager.AddBlocks_StoreBlocks :
    ∀ (calls : List (Block × Option String × Option String)) (m : Manager),
      (m.AddBlocks calls).StoreBlocks = m.StoreBlocks
  | [], _ => rfl
  | (block, insertErr, trimErr) :: rest, m => by
    rw [Manager.AddBlocks, Manager.AddBlocks_StoreBlocks rest,
      Manager.AddBlock_StoreBlocks]

theorem Manager.AddBlocks_append :
    ∀ (l₁ l₂ : List (Block × Option String × Option String)) (m : Manager),
      m.AddBlocks (l₁ ++ l₂) = (m.AddBlocks l₁).AddBlocks l₂
  | [], _, _ => rfl
  | (block, insertErr, trimErr) :: rest, l₂, m => by
    simp only [List.cons_append, Manager.AddBlocks]
    exact Manager.AddBlocks_append rest l₂ _

/-- Claim C5, refuted as stated. With `StoreBlocks = 10`, after `AddBlock` for a
block of height 100 and then for one of height 50 (database writes succeeding)
the state holds both: the heights differ by 50. -/
theorem Manager_AddBlock_out_of_order :
    ((NewManager 10).AddBlocks [(blockAt 100, none, none), (blockAt 50, none, none)]).state.blocks
        = [blockAt 100, blockAt 50] ∧
    ¬ ((NewManager 10).AddBlocks
        [(blockAt 100, none, none), (blockAt 50, none, none)]).state.Within 10 := by
  refine ⟨by decide, by decide⟩

/-- Claim C5, amended. Starting from the empty state, after any sequence of
`AddBlock` calls (any heights, any order, any database answers), an `AddBlock`
call whose block is at least as high as every block in the state and whose
database insert succeeds leaves a state with
`max(heights) - min(heights) ≤ StoreBlocks`, provided the `int64` difference
`Height - StoreBlocks` does not overflow upwards (it does not for
`StoreBlocks ≥ 0`). -/
theorem Manager_AddBlock_within (storeBlocks : Int)
    (calls : List (Block × Option String × Option String)) (block : Block)
    (trimErr : Option String)
    (hov : block.Height - storeBlocks < 9223372036854775808)
    (hmax : ∀ x ∈ ((NewManager storeBlocks).AddBlocks calls).state.blocks,
      x.Height ≤ block.Height) :
    (((NewManager storeBlocks).AddBlocks calls).AddBlock block none trimErr).1.state.Within
      storeBlocks := by
  have hs : ((NewManager storeBlocks).AddBlocks calls).StoreBlocks = storeBlocks :=
    Manager.AddBlocks_StoreBlocks calls _
  have := Manager.AddBlock_within ((NewManager storeBlocks).AddBlocks calls) block trimErr
    (by rw [hs]; exact hov) hmax
  rw [hs] at this
  exact this

/-- After the out-of-order calls for 100 and 50, the call for 105 trims again. -/
theorem Manager_AddBlock_within_witness :
    (((NewManager 10).AddBlocks [(blockAt 100, none, none), (blockAt 50, none, none)]).AddBlock
      (blockAt 105) none none).1.state.Within 10 :=
  Manager_AddBlock_within 10 [(blockAt 100, none, none), (blockAt 50, none, none)]
    (blockAt 105) none (by decide) (by decide)

theorem blocksFrom_succ (mk : Int → Block) (n : Nat) (low low' : Int) (hlow : low ≤ low') :
    (blocksFrom mk n low ++ [mk ((n : Int) + 1)]).filter (fun b => decide (low' ≤ b.Height)) =
      blocksFrom mk (n + 1) low' := by
  unfold blocksFrom
  rw [List.range_succ, List.map_append, List.filter_append, List.filter_append,
    List.filter_filter]
  congr 1
  · apply List.filter_congr
    intro b _
    by_cases h : low' ≤ b.Height
    · have : low ≤ b.Height := le_trans hlow h
      simp [h, this]
    · simp [h]

theorem blocksFrom_le (mk : Int → Block) (hmk : ∀ h, (mk h).Height = h) (n : Nat) (low : Int) :
    ∀ b ∈ blocksFrom mk n low, b.Height ≤ (n : Int) := by
  intro b hb
  simp only [blocksFrom, List.mem_filter, List.mem_map, List.mem_range] at hb
  obtain ⟨⟨i, hi, rfl⟩, -⟩ := hb
  rw [hmk]
  omega

/-- The state and the database after `AddBlock` for the heights `1..n` in
ascending order: the blocks of height at least `n - k`, in order. -/
theorem Manager.AddBlocks_ascending (k : Int) (hk : 0 ≤ k) (hk' : k < 9223372036854775808)
    (mk : Int → Block) (hmk : ∀ h, (mk h).Height = h) :
    ∀ n : Nat, (n : Int) < 9223372036854775808 →
      (NewManager k).AddBlocks (ascendingCalls mk n) =
        { StoreBlocks := k
          state := { blocks := blocksFrom mk n ((n : Int) - k), notifiers := [] }
          database := { blocks := blocksFrom mk n ((n : Int) - k), notifiers := [] } }
  | 0, _ => by simp [ascendingCalls, blocksFrom, Manager.AddBlocks, NewManager, NewState]
  | n + 1, hn => by
    have ih := Manager.AddBlocks_ascending k hk hk' mk hmk n (by omega)
    have hle := blocksFrom_le mk hmk n ((n : Int) - k)
    have hfilter : (blocksFrom mk n ((n : Int) - k)).filter
        (fun b => decide (b.Height ≠ (mk ((n : Int) + 1)).Height)) =
        blocksFrom mk n ((n : Int) - k) := by
      rw [List.filter_eq_self]
      intro b hb
      have := hle b hb
      rw [hmk]
      simp only [ne_eq, decide_not, Bool.not_eq_true', decide_eq_false_iff_not]
      omega
    have hwrap : wrapInt64 ((mk ((n : Int) + 1)).Height - k) = (n : Int) + 1 - k := by
      rw [hmk]
      unfold wrapInt64
      omega
    have hmax : ∀ x ∈ blocksFrom mk n ((n : Int) - k) ++ [mk ((n : Int) + 1)],
        x.Height ≤ (mk ((n : Int) + 1)).Height := by
      intro x hx
      rw [hmk]
      rcases List.mem_append.mp hx with hx | hx
      · have := hle x hx
        omega
      · simp only [List.mem_singleton] at hx
        rw [hx, hmk]
    have hlast : State.GetLastBlockHeight
        { blocks := blocksFrom mk n ((n : Int) - k) ++ [mk ((n : Int) + 1)], notifiers := [] } =
        (mk ((n : Int) + 1)).Height :=
      (State.GetLastBlockHeight_eq_iff _ _ (by simp)).mpr hmax
    have hsucc := blocksFrom_succ mk n ((n : Int) - k) ((n : Int) + 1 - k) (by omega)
    unfold ascendingCalls at ih ⊢
    rw [List.range_succ, List.map_append, Manager.AddBlocks_append, ih]
    simp only [List.map_cons, List.map_nil, Manager.AddBlocks, Manager.AddBlock,
      State.AddBlock, Database.InsertBlock, State.TrimBlocksBefore,
      Database.TrimBlocksBefore, hfilter, hlast, if_true, hwrap, hsucc]
    simp

/-- Claim C6. For `StoreBlocks = k ≥ 0` and `n ≥ 1`: after `AddBlock` for the
heights `1, 2, ..., n` in ascending order on an empty state and database, all
database writes succeeding, the in-memory state and the database both hold
exactly the blocks of height `h` with `max(1, n - k) ≤ h ≤ n`. -/
theorem Manager_AddBlock_ascending (k : Int) (n : Nat) (mk : Int → Block)
    (hk : 0 ≤ k) (hk' : k < 9223372036854775808)
    (hn : 1 ≤ n) (hn' : (n : Int) < 9223372036854775808)
    (hmk : ∀ h, (mk h).Height = h) :
    (∀ b, b ∈ ((NewManager k).AddBlocks (ascendingCalls mk n)).state.blocks ↔
      ∃ h : Int, max 1 ((n : Int) - k) ≤ h ∧ h ≤ (n : Int) ∧ b = mk h) ∧
    (∀ b, b ∈ ((NewManager k).AddBlocks (ascendingCalls mk n)).database.blocks ↔
      ∃ h : Int, max 1 ((n : Int) - k) ≤ h ∧ h ≤ (n : Int) ∧ b = mk h) := by
  rw [Manager.AddBlocks_ascending k hk hk' mk hmk n hn']
  have key : ∀ b, b ∈ blocksFrom mk n ((n : Int) - k) ↔
      ∃ h : Int, max 1 ((n : Int) - k) ≤ h ∧ h ≤ (n : Int) ∧ b = mk h := by
    intro b
    simp only [blocksFrom, List.mem_filter, List.mem_map, List.mem_range, decide_eq_true_eq]
    constructor
    · rintro ⟨⟨i, hi, rfl⟩, hlow⟩
      rw [hmk] at hlow
      exact ⟨(i : Int) + 1, by omega, by omega, rfl⟩
    · rintro ⟨h, h1, h2, rfl⟩
      refine ⟨⟨(h - 1).toNat, by omega, ?_⟩, ?_⟩
      · congr 1
        omega
      · rw [hmk]
        omega
  exact ⟨key, key⟩

/-- The block-trim scenario: `StoreBlocks = 10`, heights 1 to 15 in order; the
state and the database hold the heights 5 to 15. -/
theorem Manager_AddBlock_ascending_witness :
    ((∀ b, b ∈ ((NewManager 10).AddBlocks (ascendingCalls blockAt 15)).state.blocks ↔
      ∃ h : Int, max 1 (((15 : Nat) : Int) - 10) ≤ h ∧ h ≤ ((15 : Nat) : Int) ∧ b = blockAt h) ∧
    (∀ b, b ∈ ((NewManager 10).AddBlocks (ascendingCalls blockAt 15)).database.blocks ↔
      ∃ h : Int, max 1 (((15 : Nat) : Int) - 10) ≤ h ∧ h ≤ ((15 : Nat) : Int) ∧ b = blockAt h)) ∧
    ((NewManager 10).AddBlocks (ascendingCalls blockAt 15)).state.blocks.map (fun b => b.Height) =
      [5, 6, 7, 8, 9, 10, 11, 12, 13, 14, 15] ∧
    ((NewManager 10).AddBlocks (ascendingCalls blockAt 15)).database.blocks.map
      (fun b => b.Height) = [5, 6, 7, 8, 9, 10, 11, 12, 13, 14, 15] :=
  ⟨Manager_AddBlock_ascending 10 15 blockAt (by decide) (by decide) (by decide) (by decide)
    (fun _ => rfl), by decide, by decide⟩

/-! ## `Snapshot.GetReport`: jail transitions, new validators, labels -/

/-- The loop body adds no `ValidatorGroupChanged` for a validator whose jailed
flag differs between the snapshots. -/
theorem body_no_group_changed {older : Snapshot} {groups : MissedBlocksGroups} {valoper : String}
    {entry olderEntry : SnapshotEntry}
    (hold : older.Entries.lookup valoper = some olderEntry)
    (hj : olderEntry.Validator.Jailed ≠ entry.Validator.Jailed) :
    ((Snapshot.GetReport.body older groups valoper entry).getD []).filter
      (ReportEntry.isGroupChangedOf valoper) = [] := by
  unfold Snapshot.GetReport.body
  rw [hold]
  simp only
  cases hgb : groups.GetGroup olderEntry.SignatureInfo.GetNotSigned with
  | none => simp
  | some gb =>
    cases hga : groups.GetGroup entry.SignatureInfo.GetNotSigned with
    | none => simp
    | some ga =>
      simp only [Option.getD_some]
      cases hj1 : olderEntry.Validator.Jailed <;> cases hj2 : entry.Validator.Jailed <;>
        simp_all [List.filter, ReportEntry.isGroupChangedOf]

/-- Claim C12, refuted as stated. `V` goes from not jailed to jailed while its
count goes from 8 (group "OK") to 12 (group "skipping"): the report is the one
`ValidatorJailed` entry, without a `ValidatorGroupChanged`. -/
theorem GetReport_jail_hides_group_change :
    (scenarioSnapshot true 12).GetReport (scenarioSnapshot false 8) scenarioGroups =
      some ⟨[ReportEntry.jailed ⟨scenarioValidator true⟩]⟩ ∧
    scenarioGroups.GetGroup 8 ≠ scenarioGroups.GetGroup 12 := by
  refine ⟨by decide, by decide⟩

/-- Claim C12, amended. For snapshots filed by operator address whose common
validators all fall into groups: a validator present in both snapshots whose
jailed flag differs between them gets its `ValidatorJailed` or
`ValidatorUnjailed` entry in the report `GetReport` returns and no
`ValidatorGroupChanged` entry, whether or not its group differs as well. -/
theorem GetReport_jail_transition (snapshot older : Snapshot) (groups : MissedBlocksGroups)
    (valoper : String) (entry olderEntry : SnapshotEntry)
    (hkey : snapshot.Keyed) (hgrp : snapshot.Grouped older groups)
    (hnew : (valoper, entry) ∈ snapshot.Entries)
    (hold : older.Entries.lookup valoper = some olderEntry)
    (hj : olderEntry.Validator.Jailed ≠ entry.Validator.Jailed) :
    ∃ r, snapshot.GetReport older groups = some r ∧
      r.Entries.filter (ReportEntry.isGroupChangedOf valoper) = [] ∧
      ((∃ x ∈ r.Entries, x.isJailedOf valoper = true) ∨
       (∃ x ∈ r.Entries, x.isUnjailedOf valoper = true)) := by
  refine ⟨_, GetReport_eq hgrp, ?_, ?_⟩
  · rw [report_filter hkey (ReportEntry.isGroupChangedOf valoper)
      (fun x hx => isGroupChangedOf_address hx) hnew]
    exact body_no_group_changed hold hj
  · have hk := hkey (valoper, entry) hnew
    simp only at hk
    have hsome := body_isSome_of_grouped hgrp (valoper, entry) hnew
    simp only at hsome
    obtain ⟨h1, h2⟩ := @body_jail_entries older groups valoper entry olderEntry hold hk hsome
    have e1 := @report_filter snapshot older groups hkey
      (ReportEntry.isJailedOf valoper) valoper entry (fun x hx => isJailedOf_address hx) hnew
    have e2 := @report_filter snapshot older groups hkey
      (ReportEntry.isUnjailedOf valoper) valoper entry (fun x hx => isUnjailedOf_address hx) hnew
    simp only [exists_mem_iff_filter_ne_nil, e1, e2]
    rw [h1, h2]
    cases hj1 : olderEntry.Validator.Jailed <;> cases hj2 : entry.Validator.Jailed <;>
      simp_all

/-- The jail transition together with the group change from 8 to 12. -/
theorem GetReport_jail_transition_witness :
    ∃ r, (scenarioSnapshot true 12).GetReport (scenarioSnapshot false 8) scenarioGroups = some r ∧
      r.Entries.filter (ReportEntry.isGroupChangedOf "valoperV") = [] ∧
      ((∃ x ∈ r.Entries, x.isJailedOf "valoperV" = true) ∨
       (∃ x ∈ r.Entries, x.isUnjailedOf "valoperV" = true)) :=
  GetReport_jail_transition (scenarioSnapshot true 12) (scenarioSnapshot false 8) scenarioGroups
    "valoperV"
    { Validator := scenarioValidator true
      SignatureInfo := { Proposed := 0, Signed := 88, NotSigned := 12 } }
    { Validator := scenarioValidator false
      SignatureInfo := { Proposed := 0, Signed := 92, NotSigned := 8 } }
    (by decide) (by decide) (by decide) (by decide) (by decide)

/-- The loop body adds nothing for a validator the older snapshot lacks. -/
theorem body_absent {older : Snapshot} {groups : MissedBlocksGroups} {valoper : String}
    {entry : SnapshotEntry} (hold : older.Entries.lookup valoper = none) :
    Snapshot.GetReport.body older groups valoper entry = some [] := by
  unfold Snapshot.GetReport.body
  rw [hold]

/-- For snapshots filed by operator address whose common validators fall into
groups, the report has no entry at all about a validator that is in the newer
snapshot and not in the older one. -/
theorem GetReport_absent_in_older (snapshot older : Snapshot) (groups : MissedBlocksGroups)
    (valoper : String) (entry : SnapshotEntry)
    (hkey : snapshot.Keyed) (hgrp : snapshot.Grouped older groups)
    (hnew : (valoper, entry) ∈ snapshot.Entries)
    (hold : older.Entries.lookup valoper = none) :
    ∃ r, snapshot.GetReport older groups = some r ∧
      r.Entries.filter (fun x => x.GetValidator.OperatorAddress == valoper) = [] := by
  refine ⟨_, GetReport_eq hgrp, ?_⟩
  rw [report_filter hkey (fun x => x.GetValidator.OperatorAddress == valoper)
    (fun x hx => by simpa using hx) hnew, body_absent hold]
  rfl

/-- Claim C13, the failing input. The older snapshot has no validator and the
newer one has `V`: the report `GetReport` returns has no entry, so none that
tells of the new validator. -/
theorem GetReport_new_validator :
    (scenarioSnapshot false 8).Entries.lookup "valoperV" ≠ none ∧
    emptySnapshot.Entries.lookup "valoperV" = none ∧
    (scenarioSnapshot false 8).GetReport emptySnapshot scenarioGroups = some ⟨[]⟩ := by
  refine ⟨by decide, by decide, by decide⟩

/-- Every entry of what the loop returns was in the slice it was given or is
added by the body of one of the map entries. -/
theorem loop_mem (older : Snapshot) (groups : MissedBlocksGroups) :
    ∀ (l : List (String × SnapshotEntry)) (entries r : List ReportEntry),
      Snapshot.GetReport.loop older groups l entries = some r →
      ∀ x ∈ r, x ∈ entries ∨ ∃ p ∈ l, ∃ added,
        Snapshot.GetReport.body older groups p.1 p.2 = some added ∧ x ∈ added
  | [], entries, r, h, x, hx => by
    simp only [Snapshot.GetReport.loop, Option.some.injEq] at h
    subst h
    exact Or.inl hx
  | (valoper, entry) :: rest, entries, r, h, x, hx => by
    simp only [Snapshot.GetReport.loop] at h
    cases hb : Snapshot.GetReport.body older groups valoper entry with
    | none => rw [hb] at h; cases h
    | some added =>
      rw [hb] at h
      simp only at h
      rcases loop_mem older groups rest (entries ++ added) r h x hx with hx | ⟨p, hp, a, ha, hxa⟩
      · rcases List.mem_append.mp hx with hx | hx
        · exact Or.inl hx
        · exact Or.inr ⟨(valoper, entry), List.mem_cons_self _ _, added, hb, hx⟩
      · exact Or.inr ⟨p, List.mem_cons_of_mem _ hp, a, ha, hxa⟩

/-- A `ValidatorGroupChanged` added by the loop body carries two counts and
the groups `GetGroup` gave for them, and these groups start at different
places. -/
theorem body_group_changed_inv {older : Snapshot} {groups : MissedBlocksGroups}
    {valoper : String} {entry : SnapshotEntry} {added : List ReportEntry}
    {e : ValidatorGroupChanged}
    (h : Snapshot.GetReport.body older groups valoper entry = some added)
    (he : ReportEntry.groupChanged e ∈ added) :
    groups.GetGroup e.MissedBlocksBefore = some e.MissedBlocksGroupBefore ∧
    groups.GetGroup e.MissedBlocksAfter = some e.MissedBlocksGroupAfter ∧
    e.MissedBlocksGroupBefore.Start ≠ e.MissedBlocksGroupAfter.Start := by
  unfold Snapshot.GetReport.body at h
  cases hl : older.Entries.lookup valoper with
  | none =>
    rw [hl] at h
    simp only [Option.some.injEq] at h
    subst h
    simp at he
  | some olderEntry =>
    rw [hl] at h
    simp only at h
    cases hgb : groups.GetGroup olderEntry.SignatureInfo.GetNotSigned with
    | none => rw [hgb] at h; simp at h
    | some gb =>
      cases hga : groups.GetGroup entry.SignatureInfo.GetNotSigned with
      | none => rw [hgb, hga] at h; simp at h
      | some ga =>
        rw [hgb, hga] at h
        simp only [Option.some.injEq] at h
        subst h
        simp only [List.mem_append] at he
        rcases he with (he | he) | he
        · split at he
          · rename_i hc
            rw [List.mem_singleton] at he
            cases he
            simp only [Bool.and_eq_true, Bool.not_eq_true', decide_eq_false_iff_not] at hc
            exact ⟨hgb, hga, hc.1⟩
          · simp at he
        · split at he <;> simp at he
        · split at he <;> simp at he

/-- Claim C15. For a configuration whose groups are disjoint ranges and every
`ValidatorGroupChanged` entry of a report `GetReport` returns: the not-signed
count has increased or decreased; `GetDescription` and `GetEmoji` both test
`MissedBlocksGroupBefore.Start < MissedBlocksGroupAfter.Start`, which holds
exactly when the count increased; so they return the after-group's `DescStart`
and `EmojiStart` when the count increased and its `DescEnd` and `EmojiEnd`
when it decreased. -/
theorem GroupChanged_labels (snapshot older : Snapshot) (groups : MissedBlocksGroups)
    (r : Report) (e : ValidatorGroupChanged)
    (hdisj : groups.Disjoint)
    (hr : snapshot.GetReport older groups = some r)
    (he : ReportEntry.groupChanged e ∈ r.Entries) :
    (e.MissedBlocksBefore < e.MissedBlocksAfter ∨ e.MissedBlocksAfter < e.MissedBlocksBefore) ∧
    (e.MissedBlocksGroupBefore.Start < e.MissedBlocksGroupAfter.Start ↔
      e.MissedBlocksBefore < e.MissedBlocksAfter) ∧
    (e.MissedBlocksBefore < e.MissedBlocksAfter →
      e.GetDescription = e.MissedBlocksGroupAfter.DescStart ∧
      e.GetEmoji = e.MissedBlocksGroupAfter.EmojiStart) ∧
    (e.MissedBlocksAfter < e.MissedBlocksBefore →
      e.GetDescription = e.MissedBlocksGroupAfter.DescEnd ∧
      e.GetEmoji = e.MissedBlocksGroupAfter.EmojiEnd) := by
  unfold Snapshot.GetReport at hr
  cases hloop : Snapshot.GetReport.loop older groups snapshot.Entries [] with
  | none => rw [hloop] at hr; cases hr
  | some entries =>
    rw [hloop] at hr
    simp only [Option.map_some', Option.some.injEq] at hr
    subst hr
    rcases loop_mem older groups snapshot.Entries [] entries hloop _ he with hx | ⟨p, -, a, ha, hxa⟩
    · simp at hx
    · obtain ⟨hgb, hga, hne⟩ := body_group_changed_inv ha hxa
      have hb := GetGroup_range hgb
      have ha' := GetGroup_range hga
      have hneq : e.MissedBlocksGroupBefore ≠ e.MissedBlocksGroupAfter :=
        fun heq => hne (by rw [heq])
      have hR := List.Pairwise.forall
        (R := fun g h : MissedBlocksGroup =>
          g.End < g.Start ∨ h.End < h.Start ∨ g.End < h.Start ∨ h.End < g.Start)
        (fun a b hab => by
          rcases hab with h | h | h | h
          · exact Or.inr (Or.inl h)
          · exact Or.inl h
          · exact Or.inr (Or.inr (Or.inr h))
          · exact Or.inr (Or.inr (Or.inl h)))
        hdisj (GetGroup_mem hgb) (GetGroup_mem hga) hneq
      have hkey : e.MissedBlocksGroupBefore.Start < e.MissedBlocksGroupAfter.Start ↔
          e.MissedBlocksBefore < e.MissedBlocksAfter := by
        constructor <;> intro h <;> omega
      refine ⟨by omega, hkey, ?_, ?_⟩
      · intro hinc
        have hs := hkey.mpr hinc
        simp [ValidatorGroupChanged.GetDescription, ValidatorGroupChanged.GetEmoji, hs]
      · intro hdec
        have hs : ¬ e.MissedBlocksGroupBefore.Start < e.MissedBlocksGroupAfter.Start := by
          intro h
          have := hkey.mp h
          omega
        simp [ValidatorGroupChanged.GetDescription, ValidatorGroupChanged.GetEmoji, hs]

/-- The group transition from 8 to 12 under `labelledGroups`: the entry is in
the report and the count increased. -/
theorem GroupChanged_labels_witness :
    (labelledEvent.MissedBlocksBefore < labelledEvent.MissedBlocksAfter ∨
      labelledEvent.MissedBlocksAfter < labelledEvent.MissedBlocksBefore) ∧
    (labelledEvent.MissedBlocksGroupBefore.Start < labelledEvent.MissedBlocksGroupAfter.Start ↔
      labelledEvent.MissedBlocksBefore < labelledEvent.MissedBlocksAfter) ∧
    (labelledEvent.MissedBlocksBefore < labelledEvent.MissedBlocksAfter →
      labelledEvent.GetDescription = labelledEvent.MissedBlocksGroupAfter.DescStart ∧
      labelledEvent.GetEmoji = labelledEvent.MissedBlocksGroupAfter.EmojiStart) ∧
    (labelledEvent.MissedBlocksAfter < labelledEvent.MissedBlocksBefore →
      labelledEvent.GetDescription = labelledEvent.MissedBlocksGroupAfter.DescEnd ∧
      labelledEvent.GetEmoji = labelledEvent.MissedBlocksGroupAfter.EmojiEnd) :=
  GroupChanged_labels (scenarioSnapshot false 12) (scenarioSnapshot false 8) labelledGroups
    ⟨[ReportEntry.groupChanged labelledEvent]⟩ labelledEvent
    (by decide) (by decide) (by decide)

/-! ## `ValidatorLeftSignatory.Render` -/

/-- Claim C14. For every `ValidatorLeftSignatory` event and every render data,
`Render` returns the sentence in `<strong>` tags for the HTML format, between
`**` for the Markdown format, each followed by a blank and the notifiers, and
for every other format `Unsupported format type: ` followed by the format. -/
theorem ValidatorLeftSignatory_Render (e : ValidatorLeftSignatory)
    (renderData : ReportEventRenderData) :
    e.Render FormatTypeHTML renderData =
      "<strong>👋 " ++ renderData.ValidatorLink ++
        " is now not required to sign blocks</strong> " ++ renderData.Notifiers ∧
    e.Render FormatTypeMarkdown renderData =
      "**👋 " ++ renderData.ValidatorLink ++ " is now not required to sign blocks** " ++
        renderData.Notifiers ∧
    ∀ formatType : String, formatType ≠ FormatTypeHTML → formatType ≠ FormatTypeMarkdown →
      e.Render formatType renderData = "Unsupported format type: " ++ formatType := by
  refine ⟨?_, ?_, ?_⟩
  · have h : FormatTypeHTML ≠ FormatTypeMarkdown := by decide
    simp [ValidatorLeftSignatory.Render, h]
  · simp [ValidatorLeftSignatory.Render]
  · intro formatType h1 h2
    simp [ValidatorLeftSignatory.Render, h1, h2]

/-- The three tests of `validator_left_signatory_test.go`: the event and the
render data they build, and the strings they expect. -/
theorem ValidatorLeftSignatory_Render_tests :
    ValidatorLeftSignatory.Render ⟨⟨"", "test", false⟩⟩ FormatTypeHTML
        ⟨"notifier1 notifier2", "<link>"⟩ =
      "<strong>👋 <link> is now not required to sign blocks</strong> notifier1 notifier2" ∧
    ValidatorLeftSignatory.Render ⟨⟨"", "test", false⟩⟩ FormatTypeMarkdown
        ⟨"notifier1 notifier2", "<link>"⟩ =
      "**👋 <link> is now not required to sign blocks** notifier1 notifier2" ∧
    ValidatorLeftSignatory.Render ⟨⟨"", "test", false⟩⟩ FormatTypeTest
        ⟨"notifier1 notifier2", "<link>"⟩ =
      "Unsupported format type: test" := by
  obtain ⟨h1, h2, h3⟩ := ValidatorLeftSignatory_Render ⟨⟨"", "test", false⟩⟩
    ⟨"notifier1 notifier2", "<link>"⟩
  refine ⟨?_, ?_, ?_⟩
  · rw [h1]; decide
  · rw [h2]; decide
  · rw [h3 FormatTypeTest (by decide) (by decide)]; decide

/-! ## `RPC.GetActiveSetAtBlock` -/

/-- `RPC.Get` returns nil when there is an endpoint and every endpoint's
response is accepted. -/
theorem RPC.Get_accepted (RPCEndpoints : List String) (indexes : List Nat)
    (hne : RPCEndpoints ≠ []) (hperm : indexes.Perm (List.range RPCEndpoints.length)) :
    RPC.Get RPCEndpoints indexes (fun _ => Outcome.accepted) = some none := by
  have hmem : ∀ i, i ∈ indexes ↔ i < RPCEndpoints.length := fun i => by
    rw [hperm.mem_iff, List.mem_range]
  have hloop := (RPC.Get.loop_nil_iff RPCEndpoints (fun _ => Outcome.accepted) indexes
    (List.replicate RPCEndpoints.length none) (fun i hi => (hmem i).mp hi)).1
  have hpos : 0 < RPCEndpoints.length := List.length_pos.mpr hne
  have hnil := hloop.mpr ⟨0, (hmem 0).mpr hpos, rfl⟩
  unfold RPC.Get
  rw [hnil]

/-- The keys of the map after `activeSetMap[address] = true`. -/
theorem activeSetMapSet_keys (activeSetMap : List (String × Bool)) (address key : String) :
    (∃ v, (key, v) ∈ activeSetMapSet activeSetMap address) ↔
      (∃ v, (key, v) ∈ activeSetMap) ∨ key = address := by
  unfold activeSetMapSet
  by_cases hany : activeSetMap.any (fun p => p.1 == address) = true
  · rw [if_pos hany]
    constructor
    · rintro ⟨v, hv⟩
      obtain ⟨p, hp, hpe⟩ := List.mem_map.mp hv
      by_cases hpa : (p.1 == address) = true
      · rw [if_pos hpa] at hpe
        exact Or.inr (congrArg Prod.fst hpe).symm
      · rw [if_neg hpa] at hpe
        exact Or.inl ⟨v, hpe ▸ hp⟩
    · rintro (⟨v, hv⟩ | rfl)
      · by_cases hka : (key == address) = true
        · refine ⟨true, List.mem_map.mpr ⟨(key, v), hv, ?_⟩⟩
          simp only [hka, if_true]
          rw [beq_iff_eq] at hka
          rw [hka]
        · exact ⟨v, List.mem_map.mpr ⟨(key, v), hv, by simp only [hka]; rfl⟩⟩
      · obtain ⟨p, hp, hpa⟩ := List.any_eq_true.mp hany
        exact ⟨true, List.mem_map.mpr ⟨p, hp, by simp only [hpa, if_true]⟩⟩
  · rw [if_neg hany]
    constructor
    · rintro ⟨v, hv⟩
      rcases List.mem_append.mp hv with hv | hv
      · exact Or.inl ⟨v, hv⟩
      · simp only [List.mem_singleton, Prod.mk.injEq] at hv
        exact Or.inr hv.1
    · rintro (⟨v, hv⟩ | rfl)
      · exact ⟨v, List.mem_append_left _ hv⟩
      · exact ⟨true, List.mem_append_right _ (List.mem_singleton.mpr rfl)⟩

/-- The keys of the map after the addresses of a page are put into it. -/
theorem foldl_activeSetMapSet_keys (validators : List String) :
    ∀ (activeSetMap : List (String × Bool)) (key : String),
      (∃ v, (key, v) ∈ validators.foldl activeSetMapSet activeSetMap) ↔
        (∃ v, (key, v) ∈ activeSetMap) ∨ key ∈ validators := by
  induction validators with
  | nil => intro m key; simp
  | cons a rest ih =>
    intro m key
    rw [List.foldl_cons, ih, activeSetMapSet_keys, List.mem_cons]
    tauto

/-- Against an endpoint that serves a non-empty active set in pages of 100,
`GetActiveSetAtBlock` returns after the first page, with the map made of that
page: the break test `len(...) <= ActiveSetPagination` holds for every page. -/
theorem RPC.GetActiveSetAtBlock_first_page (RPCEndpoints : List String)
    (shuffle : Nat → List Nat) (activeSet : List String) (height : Int) (rounds : Nat)
    (hne : RPCEndpoints ≠ [])
    (hperm : (shuffle 1).Perm (List.range RPCEndpoints.length))
    (hset : activeSet ≠ []) :
    RPC.GetActiveSetAtBlock RPCEndpoints shuffle (servePages activeSet) height (rounds + 1) =
      ActiveSetEnd.returned ((activeSet.take ActiveSetPagination).foldl activeSetMapSet []) := by
  have hserve : servePages activeSet height 1 =
      Except.ok (activeSet.take ActiveSetPagination) := by
    simp [servePages]
  have hlen : (activeSet.take ActiveSetPagination).length ≠ 0 := by
    cases activeSet with
    | nil => exact absurd rfl hset
    | cons a rest => simp [ActiveSetPagination]
  have hout : RPC.GetActiveSetAtBlock.outcome (servePages activeSet height 1) =
      Outcome.accepted := by
    rw [hserve]
    simp only [RPC.GetActiveSetAtBlock.outcome, if_neg hlen]
  have hle : (activeSet.take ActiveSetPagination).length ≤ ActiveSetPagination :=
    List.length_take_le _ _
  unfold RPC.GetActiveSetAtBlock
  simp only [RPC.GetActiveSetAtBlock.loop, hout, RPC.Get_accepted RPCEndpoints (shuffle 1) hne hperm]
  rw [hserve]
  simp only [RPC.GetActiveSetAtBlock.decoded, if_pos hle]

/-- The keys of the map `GetActiveSetAtBlock` returns against such an endpoint
are the addresses of the first page. -/
theorem RPC.GetActiveSetAtBlock_keys (RPCEndpoints : List String)
    (shuffle : Nat → List Nat) (activeSet : List String) (height : Int) (rounds : Nat)
    (hne : RPCEndpoints ≠ [])
    (hperm : (shuffle 1).Perm (List.range RPCEndpoints.length))
    (hset : activeSet ≠ []) :
    ∃ activeSetMap,
      RPC.GetActiveSetAtBlock RPCEndpoints shuffle (servePages activeSet) height (rounds + 1) =
        ActiveSetEnd.returned activeSetMap ∧
      ∀ key, (∃ v, (key, v) ∈ activeSetMap) ↔ key ∈ activeSet.take ActiveSetPagination := by
  refine ⟨_, RPC.GetActiveSetAtBlock_first_page RPCEndpoints shuffle activeSet height rounds
    hne hperm hset, ?_⟩
  intro key
  rw [foldl_activeSetMapSet_keys]
  simp

/-- Claim C11, the failing input. An active set of 101 validators, served by
the endpoint in pages of 100: `GetActiveSetAtBlock` returns a map without the
last validator, `valcons100`, which is on the second page. -/
theorem GetActiveSetAtBlock_misses_second_page (height : Int) (rounds : Nat) :
    "valcons100" ∈ validatorSet 101 ∧
    ∃ activeSetMap,
      RPC.GetActiveSetAtBlock ["http://a"] (fun _ => [0]) (servePages (validatorSet 101))
        height (rounds + 1) = ActiveSetEnd.returned activeSetMap ∧
      ∀ v, ("valcons100", v) ∉ activeSetMap := by
  refine ⟨by decide, _, RPC.GetActiveSetAtBlock_first_page ["http://a"] (fun _ => [0])
    (validatorSet 101) height rounds (by decide) (by decide) (by decide), ?_⟩
  intro v hv
  have := (foldl_activeSetMapSet_keys _ [] "valcons100").mp ⟨v, hv⟩
  rcases this with ⟨w, hw⟩ | hmem
  · simp at hw
  · revert hmem
    decide

end MissedBlocksChecker
